import Mathlib

/-!
# ASPEED GPIO controller: pin addressing, sense evaluation and the pin-level handler

A shallow embedding of `hw/gpio/aspeed_gpio.c` (with `include/hw/gpio/aspeed_gpio.h`),
and of the register handlers of `hw/misc/aspeed_lpc.c` (with
`include/hw/misc/aspeed_lpc.h`), the register dispatch code present in the sources,
and of the PMBus device of `hw/i2c/pmbus.c`.

* Machine words are natural numbers; a register word is a `Fin 4294967296`
  (`uint32_t`), and every store truncates modulo `2^32`.
* A pin number is the line number the handler is registered for
  (`qdev_init_gpio_in`), hence a natural number.
* The two calls that leave the device, `qemu_log_mask (LOG_GUEST_ERROR, ...)` and
  `qemu_irq_raise`, are recorded in the state: a counter for each, and the level
  of the interrupt line.
* A read of `gpio_groups` past its last entry has no defined result; the handler
  then yields `none`.
-/

namespace AspeedGpio

/-! ## Pin addressing (`aspeed_gpio.c`, lines 6-9) -/

/-- Modelled from the spec: `BIT` is defined in a header that is not among the sources
at hand (`qemu/bitops.h`); the specification gives the mask of a pin as
`1 << (index_in_bank + 8*bank)`, so `BIT(nr)` is `1 << nr`. -/
def BIT (nr : Nat) : Nat := 1 <<< nr

/-- Group of pin `n`: `TO_GROUP(n)` is `((n) / (8 * 4))`. -/
def TO_GROUP (n : Nat) : Nat := n / (8 * 4)

/-- Bank of pin `n` within its group: `TO_BANK(n)` is `(((n) / 8) % 4)`. -/
def TO_BANK (n : Nat) : Nat := (n / 8) % 4

/-- Index of pin `n` within its bank: `TO_INDEX(n)` is `((n) % 8)`. -/
def TO_INDEX (n : Nat) : Nat := n % 8

/-- Mask of pin `n` in the words of its group: `GROUP_BIT(n)` is
`(BIT(TO_INDEX(n)) << (8 * TO_BANK(n)))`. -/
def GROUP_BIT (n : Nat) : Nat := BIT (TO_INDEX n) <<< (8 * TO_BANK n)

/-! ## Group layout table (`aspeed_gpio.c`, lines 11-34) -/

/-- The structure `aspeed_gpio_group`: word indexes of the registers of one group. -/
structure aspeed_gpio_group where
  data : Nat
  dir : Nat
  irq_enable : Nat
  irq_sense : Nat
  irq_status : Nat
  reset : Nat
  debounce : Nat
deriving DecidableEq, Repr

/-- Word index of a byte offset: `TO_REG(offset)` is `((offset) >> 2)`. -/
def TO_REG (offset : Nat) : Nat := offset >>> 2

/-- First entry of `gpio_groups`, the group of banks A/B/C/D. -/
def group_ABCD : aspeed_gpio_group :=
  { data := TO_REG 0x000
    dir := TO_REG 0x004
    irq_enable := TO_REG 0x008
    irq_sense := TO_REG 0x00C
    irq_status := TO_REG 0x018
    reset := TO_REG 0x01C
    debounce := TO_REG 0x040 }

/-- Second entry of `gpio_groups`, the group of banks E/F/G/H: its initialiser is
empty, so every member of it is zero. -/
def group_EFGH : aspeed_gpio_group :=
  { data := 0
    dir := 0
    irq_enable := 0
    irq_sense := 0
    irq_status := 0
    reset := 0
    debounce := 0 }

/-- The table `gpio_groups`, of two entries. -/
def gpio_groups : List aspeed_gpio_group := [group_ABCD, group_EFGH]

/-! ## Controller state (`aspeed_gpio.h`, lines 19-32) -/

/-- Number of words of the register file: `ASPEED_SCU_NR_REGS` is `(0x1F0 >> 2)`. -/
def ASPEED_SCU_NR_REGS : Nat := 0x1F0 >>> 2

/-- Number of values of a `uint32_t`. -/
abbrev UINT32_SIZE : Nat := 4294967296

/-- The structure `AspeedGPIOState`. `regs` is the register file, one `uint32_t` for each word
index. `nr_gpios` is read by the handler as `s->nr_gpios`; the structure in the
header does not declare it, so it is carried here as a field of the state.
`irq` is the level last driven on the line `s->irq`; `irq_raises` counts the calls
of `qemu_irq_raise` and `guest_errors` the guest errors reported. -/
structure AspeedGPIOState where
  regs : Nat → Fin UINT32_SIZE
  nr_gpios : Nat
  silicon_rev : Nat
  irq : Bool
  irq_raises : Nat
  guest_errors : Nat

/-- Conversion of a value to `uint32_t`. -/
def u32 (v : Nat) : Fin UINT32_SIZE := ⟨v % UINT32_SIZE, Nat.mod_lt v (by decide)⟩

/-- The value `s->regs[i]`. -/
def rd (s : AspeedGPIOState) (i : Nat) : Nat := (s.regs i).val

/-- The store `s->regs[i] = v`. -/
def wr (s : AspeedGPIOState) (i : Nat) (v : Nat) : AspeedGPIOState :=
  { s with regs := fun j => if j = i then u32 v else s.regs j }

/-- The complement `~x` of an `unsigned long` (64 bits). -/
def NOT64 (x : Nat) : Nat := 18446744073709551615 ^^^ x

/-- The call `qemu_log_mask(LOG_GUEST_ERROR, ...)`: one more guest error reported. -/
def qemu_log_guest_error (s : AspeedGPIOState) : AspeedGPIOState :=
  { s with guest_errors := s.guest_errors + 1 }

/-- The call `qemu_irq_raise(s->irq)`: the line is driven high. -/
def qemu_irq_raise (s : AspeedGPIOState) : AspeedGPIOState :=
  { s with irq := true, irq_raises := s.irq_raises + 1 }

/-! ## Predicates on a pin (`aspeed_gpio.c`, lines 36-102) -/

/-- Function `aspeed_gpio_output_only`: a stub in the source, it answers `false`. -/
def aspeed_gpio_output_only (_s : AspeedGPIOState) (_n : Nat) : Bool := false

/-- Function `aspeed_gpio_irq_enabled`: `s->regs[g->irq_enable] & GROUP_BIT(n)` as a
`bool` (the source spells the member `irq_enabled`; the structure has `irq_enable`). -/
def aspeed_gpio_irq_enabled (s : AspeedGPIOState) (g : aspeed_gpio_group) (n : Nat) : Bool :=
  rd s g.irq_enable &&& GROUP_BIT n != 0

/-- Function `aspeed_gpio_irq_low`: `!dual && level && !high`. -/
def aspeed_gpio_irq_low (s : AspeedGPIOState) (g : aspeed_gpio_group) (n : Nat) : Bool :=
  let level : Bool := rd s (g.irq_sense + 1) &&& GROUP_BIT n != 0
  let dual : Bool := rd s (g.irq_sense + 2) &&& GROUP_BIT n != 0
  let high : Bool := rd s (g.irq_sense + 0) &&& GROUP_BIT n != 0
  !dual && level && !high

/-- Function `aspeed_gpio_irq_high`: `!dual && level && high`. -/
def aspeed_gpio_irq_high (s : AspeedGPIOState) (g : aspeed_gpio_group) (n : Nat) : Bool :=
  let level : Bool := rd s (g.irq_sense + 1) &&& GROUP_BIT n != 0
  let dual : Bool := rd s (g.irq_sense + 2) &&& GROUP_BIT n != 0
  let high : Bool := rd s (g.irq_sense + 0) &&& GROUP_BIT n != 0
  !dual && level && high

/-- Function `aspeed_gpio_irq_rising`: `!dual && !level && high`. -/
def aspeed_gpio_irq_rising (s : AspeedGPIOState) (g : aspeed_gpio_group) (n : Nat) : Bool :=
  let level : Bool := rd s (g.irq_sense + 1) &&& GROUP_BIT n != 0
  let dual : Bool := rd s (g.irq_sense + 2) &&& GROUP_BIT n != 0
  let high : Bool := rd s (g.irq_sense + 0) &&& GROUP_BIT n != 0
  !dual && !level && high

/-- Function `aspeed_gpio_irq_falling`: `!dual && !level && !high`. -/
def aspeed_gpio_irq_falling (s : AspeedGPIOState) (g : aspeed_gpio_group) (n : Nat) : Bool :=
  let level : Bool := rd s (g.irq_sense + 1) &&& GROUP_BIT n != 0
  let dual : Bool := rd s (g.irq_sense + 2) &&& GROUP_BIT n != 0
  let high : Bool := rd s (g.irq_sense + 0) &&& GROUP_BIT n != 0
  !dual && !level && !high

/-- Function `aspeed_gpio_irq_both`: `s->regs[g->irq_sense + 2] & GROUP_BIT(n)` as a
`bool`. -/
def aspeed_gpio_irq_both (s : AspeedGPIOState) (g : aspeed_gpio_group) (n : Nat) : Bool :=
  rd s (g.irq_sense + 2) &&& GROUP_BIT n != 0

/-- Function `aspeed_gpio_is_input`: `!(s->regs[g->dir] & GROUP_BIT(n))`. -/
def aspeed_gpio_is_input (s : AspeedGPIOState) (g : aspeed_gpio_group) (n : Nat) : Bool :=
  !(rd s g.dir &&& GROUP_BIT n != 0)

/-! ## The pin-level handler (`aspeed_gpio.c`, lines 104-155) -/

/-- Function `aspeed_gpio_irq(opaque, n, level)`, the handler of a level change on pin `n`.
The steps follow the source one for one: the range test `n > s->nr_gpios`, the
output-only test, the lookup of the group, the direction test (which reports and
goes on), the capture of `old` and `new`, the two stores to the data word, and the
interrupt evaluation on the state so updated. -/
def aspeed_gpio_irq (s : AspeedGPIOState) (n : Nat) (level : Int) : Option AspeedGPIOState :=
  if n > s.nr_gpios then
    some (qemu_log_guest_error s)
  else if aspeed_gpio_output_only s n then
    some (qemu_log_guest_error s)
  else
    match gpio_groups[TO_GROUP n]? with
    | none => none
    | some group =>
      let s1 := if !aspeed_gpio_is_input s group n then qemu_log_guest_error s else s
      let old : Nat := (rd s1 group.data &&& GROUP_BIT n) % UINT32_SIZE
      let new : Nat := (if level ≠ 0 then GROUP_BIT n else 0) % UINT32_SIZE
      let s2 := wr s1 group.data (rd s1 group.data &&& NOT64 (GROUP_BIT n))
      let s3 := wr s2 group.data (rd s2 group.data ||| new)
      if aspeed_gpio_irq_enabled s3 group n then
        let interrupt : Bool :=
          (aspeed_gpio_irq_low s3 group n && level == 0)
          || (aspeed_gpio_irq_high s3 group n && level != 0)
          || (aspeed_gpio_irq_rising s3 group n && (old == 0 && new != 0))
          || (aspeed_gpio_irq_falling s3 group n && (old != 0 && new == 0))
          || (aspeed_gpio_irq_both s3 group n && (old != new))
        if interrupt then
          some (qemu_irq_raise (wr s3 group.irq_status (rd s3 group.irq_status ||| GROUP_BIT n)))
        else
          some s3
      else
        some s3

/-! ## Auxiliary definitions for the statements and proofs -/

/-- The bit of pin `n` in register word `word`, read the way the source reads it:
`s->regs[word] & GROUP_BIT(n)` as a `bool`. -/
def pin_bit (s : AspeedGPIOState) (word n : Nat) : Bool := rd s word &&& GROUP_BIT n != 0

/-- The qualification rule as the specification words it (section 4.4): from the five
sense conditions, the old level and the new level of the pin, whether the change
fires an interrupt. -/
def spec_fire (low high rising falling both old new : Bool) : Bool :=
  (low && !new) || (high && new) || (rising && !old && new) || (falling && old && !new)
    || (both && (old != new))

/-- The rule `spec_fire` at a pin: the sense conditions are those the source computes
on state `s`, the old level is the pin's data bit in `s`, the new level is `level`. -/
def pin_fire (s : AspeedGPIOState) (g : aspeed_gpio_group) (n : Nat) (level : Int) : Bool :=
  spec_fire (aspeed_gpio_irq_low s g n) (aspeed_gpio_irq_high s g n)
    (aspeed_gpio_irq_rising s g n) (aspeed_gpio_irq_falling s g n) (aspeed_gpio_irq_both s g n)
    (pin_bit s g.data n) (decide (level ≠ 0))

/-- The value the two stores of the handler leave in a data word that held `x`. -/
def data_after (x n : Nat) (level : Int) : Nat :=
  ((x &&& NOT64 (GROUP_BIT n)) % UINT32_SIZE
    ||| (if level ≠ 0 then GROUP_BIT n else 0) % UINT32_SIZE) % UINT32_SIZE

/-- The handler from the capture of `old` on (source lines 131-154), for a pin that
passed the tests; `s1` is the state after the direction test. -/
def irq_tail (s1 : AspeedGPIOState) (group : aspeed_gpio_group) (n : Nat) (level : Int) :
    AspeedGPIOState :=
  let old : Nat := (rd s1 group.data &&& GROUP_BIT n) % UINT32_SIZE
  let new : Nat := (if level ≠ 0 then GROUP_BIT n else 0) % UINT32_SIZE
  let s2 := wr s1 group.data (rd s1 group.data &&& NOT64 (GROUP_BIT n))
  let s3 := wr s2 group.data (rd s2 group.data ||| new)
  if aspeed_gpio_irq_enabled s3 group n then
    let interrupt : Bool :=
      (aspeed_gpio_irq_low s3 group n && level == 0)
      || (aspeed_gpio_irq_high s3 group n && level != 0)
      || (aspeed_gpio_irq_rising s3 group n && (old == 0 && new != 0))
      || (aspeed_gpio_irq_falling s3 group n && (old != 0 && new == 0))
      || (aspeed_gpio_irq_both s3 group n && (old != new))
    if interrupt then
      qemu_irq_raise (wr s3 group.irq_status (rd s3 group.irq_status ||| GROUP_BIT n))
    else
      s3
  else
    s3

/-- The controller with every register word zero and `nr` pins. -/
def zeroState (nr : Nat) : AspeedGPIOState :=
  { regs := fun _ => 0
    nr_gpios := nr
    silicon_rev := 0
    irq := false
    irq_raises := 0
    guest_errors := 0 }

/-- Pin 3 enabled for interrupts with rising-edge sense (`high` set, `level` and `dual`
clear), data bit clear, on a controller of 32 pins. -/
def risingPin3 : AspeedGPIOState := wr (wr (zeroState 32) 2 8) 3 8

/-- Pin 3 enabled for interrupts with falling-edge sense (the three sense bits clear). -/
def fallingPin3 : AspeedGPIOState := wr (zeroState 32) 2 8

/-- Pin 3 enabled for interrupts with both-edges sense (`dual` set). -/
def bothPin3 : AspeedGPIOState := wr (wr (zeroState 32) 2 8) 5 8

/-- Pin 3 enabled for interrupts with high-level sense (`level` and `high` set). -/
def highPin3 : AspeedGPIOState := wr (wr (wr (zeroState 32) 2 8) 3 8) 4 8

/-- Pin 3 configured as an output (direction bit set), every other word zero. -/
def outputPin3 : AspeedGPIOState := wr (zeroState 32) 1 8

/-! ## Interrupt line, layout and construction (`aspeed_gpio.c`, lines 23-34 and 166-185) -/

/-- Whether some group of the table `gpio_groups` has a pending interrupt under its
enable mask: `irq_status & irq_enable` is not zero for one entry of the table. -/
def irq_pending (s : AspeedGPIOState) : Bool :=
  gpio_groups.any fun g => rd s g.irq_status &&& rd s g.irq_enable != 0

/-- The invariant of the interrupt line: the line is asserted if and only if some group
has a pending interrupt under its enable mask. -/
def line_invariant (s : AspeedGPIOState) : Bool := s.irq == irq_pending s

/-- The invariant of the interrupt line, read on group A/B/C/D alone. -/
def line_invariant_ABCD (s : AspeedGPIOState) : Bool :=
  s.irq == (rd s group_ABCD.irq_status &&& rd s group_ABCD.irq_enable != 0)

/-- The word indexes an entry of the table names: data, direction, enable, the three
sense words, status, reset and debounce. -/
def group_words (g : aspeed_gpio_group) : List Nat :=
  [g.data, g.dir, g.irq_enable, g.irq_sense + 0, g.irq_sense + 1, g.irq_sense + 2,
    g.irq_status, g.reset, g.debounce]

/-- The steps of device construction that `aspeed_scu_realize` can take, in the order
of the source, and the report of an error to the caller. -/
inductive RealizeStep where
  | error_setg (silicon_rev : Nat)
  | memory_region_init_io (size : Nat)
  | sysbus_init_mmio
  | qdev_init_gpio_in (n : Nat)
  | sysbus_init_irq
deriving DecidableEq, Repr

/-- Function `aspeed_scu_realize` of `aspeed_gpio.c`, as the list of the steps it takes.
The test `is_supported_silicon_rev` and the count `ASPEED_GPIO_NR_GPIOS` are not
defined in the sources at hand and are parameters. -/
def aspeed_scu_realize (is_supported_silicon_rev : Nat → Bool) (ASPEED_GPIO_NR_GPIOS : Nat)
    (s : AspeedGPIOState) : List RealizeStep :=
  if !is_supported_silicon_rev s.silicon_rev then
    [RealizeStep.error_setg s.silicon_rev]
  else
    [RealizeStep.memory_region_init_io 0x1000, RealizeStep.sysbus_init_mmio,
      RealizeStep.qdev_init_gpio_in ASPEED_GPIO_NR_GPIOS, RealizeStep.sysbus_init_irq]

/-- The controller of 64 pins in which word 0 holds 8: with the table as it is, bit 3
of the `irq_status` word of group E/F/G/H (the pending bit of pin 35). -/
def pendingWord0 : AspeedGPIOState := wr (zeroState 64) 0 8

/-- Whether a call for pin `n` of group A/B/C/D with level `level` latches an interrupt
in state `s`: the pin is enabled and the qualification rule holds. -/
def pin_fires (s : AspeedGPIOState) (n : Nat) (level : Int) : Bool :=
  aspeed_gpio_irq_enabled s group_ABCD n && pin_fire s group_ABCD n level

/-- Whether the call that took the controller from `s` to `s'` raised the interrupt
line: the count of calls of `qemu_irq_raise` changed. -/
def raised (s s' : AspeedGPIOState) : Bool := s'.irq_raises != s.irq_raises

/-- The word indexes of a group that the handler `aspeed_gpio_irq` reads or writes:
data, direction, enable, the three sense words and status. -/
def handler_words (g : aspeed_gpio_group) : List Nat :=
  [g.data, g.dir, g.irq_enable, g.irq_sense + 0, g.irq_sense + 1, g.irq_sense + 2,
    g.irq_status]

/-! ## Register write of the GPIO controller (specification, sections 4.2, 4.4, 6, 7) -/

end AspeedGpio

namespace AspeedLpc

open AspeedGpio

/-! ## Register dispatch (`hw/misc/aspeed_lpc.c`, `include/hw/misc/aspeed_lpc.h`) -/

/-- Number of words of the register file: `ASPEED_LPC_NR_REGS` is `(0x260 >> 2)`. -/
def ASPEED_LPC_NR_REGS : Nat := 0x260 >>> 2

/-- Size in bytes of the I/O region the handlers are registered for:
`LPC_IO_REGION_SIZE` is `0x1000`. -/
def LPC_IO_REGION_SIZE : Nat := 0x1000

/-- The structure `AspeedLPCState`: the register file `regs`, one `uint32_t` for each
word index below `ASPEED_LPC_NR_REGS`; `guest_errors` counts the guest errors
reported. -/
structure AspeedLPCState where
  regs : Nat → Fin UINT32_SIZE
  guest_errors : Nat

/-- Conversion of an unsigned value to `int` (32 bits, two's complement). -/
def to_int (v : Nat) : Int :=
  if v % 4294967296 < 2147483648 then ((v % 4294967296 : Nat) : Int)
  else ((v % 4294967296 : Nat) : Int) - 4294967296

/-- Conversion of an `int` to `size_t` (64 bits), as the comparison with
`ARRAY_SIZE(s->regs)` converts it. -/
def to_size_t (i : Int) : Nat := (i % 18446744073709551616).toNat

/-- Function `aspeed_lpc_read`: the word index is `int reg = TO_REG(offset)`; when it
is not below the number of words a guest error is reported and the value is 0,
otherwise the value is `s->regs[reg]`. The result is the value and the state. -/
def aspeed_lpc_read (s : AspeedLPCState) (offset : Nat) (_size : Nat) : Nat × AspeedLPCState :=
  let reg : Int := to_int (TO_REG offset)
  if to_size_t reg ≥ ASPEED_LPC_NR_REGS then
    (0, { s with guest_errors := s.guest_errors + 1 })
  else
    ((s.regs reg.toNat).val, s)

/-- Function `aspeed_lpc_write`: when the word index is not below the number of words a
guest error is reported and nothing is stored, otherwise `s->regs[reg] = data`. -/
def aspeed_lpc_write (s : AspeedLPCState) (offset : Nat) (data : Nat) (_size : Nat) :
    AspeedLPCState :=
  let reg : Int := to_int (TO_REG offset)
  if to_size_t reg ≥ ASPEED_LPC_NR_REGS then
    { s with guest_errors := s.guest_errors + 1 }
  else
    { s with regs := fun j => if j = reg.toNat then u32 data else s.regs j }

/-- Function `aspeed_lpc_reset`: `memset(s->regs, 0, sizeof(s->regs))`. -/
def aspeed_lpc_reset (s : AspeedLPCState) : AspeedLPCState :=
  { s with regs := fun j => if j < ASPEED_LPC_NR_REGS then 0 else s.regs j }

/-- The members of `MemoryRegionOps` that say which accesses are valid. -/
structure MemoryRegionOps where
  valid_min_access_size : Nat
  valid_max_access_size : Nat
  valid_unaligned : Bool

/-- The table `aspeed_lpc_ops`: accesses of 4 bytes only, none unaligned. The table
`aspeed_scu_ops` of `aspeed_gpio.c` has the same three members. -/
def aspeed_lpc_ops : MemoryRegionOps :=
  { valid_min_access_size := 4
    valid_max_access_size := 4
    valid_unaligned := false }

/-- Modelled from the spec: the test the memory core makes before it calls a handler is
not in the sources at hand. The specification (section 4.2) has the access size fixed
by the table and the offset word-aligned; any other size or a misaligned offset is an
invalid access. -/
def access_valid (ops : MemoryRegionOps) (offset size : Nat) : Bool :=
  decide (ops.valid_min_access_size ≤ size) && decide (size ≤ ops.valid_max_access_size)
    && (ops.valid_unaligned || offset % 4 == 0)

/-- Modelled from the spec: the dispatch of a read by the memory core, which is not in
the sources at hand. An invalid access is reported as a diagnostic and reads as 0
(section 4.2); a valid one goes to the handler `aspeed_lpc_read`. -/
def dispatch_read (ops : MemoryRegionOps) (s : AspeedLPCState) (offset size : Nat) :
    Nat × AspeedLPCState :=
  if access_valid ops offset size then aspeed_lpc_read s offset size
  else (0, { s with guest_errors := s.guest_errors + 1 })

/-- Modelled from the spec: the dispatch of a write by the memory core, which is not in
the sources at hand. An invalid access is reported as a diagnostic and the write is
ignored (section 4.2); a valid one goes to the handler `aspeed_lpc_write`. -/
def dispatch_write (ops : MemoryRegionOps) (s : AspeedLPCState) (offset data size : Nat) :
    AspeedLPCState :=
  if access_valid ops offset size then aspeed_lpc_write s offset data size
  else { s with guest_errors := s.guest_errors + 1 }

/-- A register file in which every word holds 8. -/
def allEight : AspeedLPCState :=
  { regs := fun _ => 8
    guest_errors := 0 }

end AspeedLpc

namespace PMBus

open AspeedGpio

/-! ## PMBus device (`hw/i2c/pmbus.c`) -/

/-- Command code `PMBUS_C_PAGE`. -/
def PMBUS_C_PAGE : Nat := 0x00

/-- Command code `PMBUS_C_CLEAR_FAULTS`. -/
def PMBUS_C_CLEAR_FAULTS : Nat := 0x03

/-- Command code `PMBUS_C_CAPABILITY`. -/
def PMBUS_C_CAPABILITY : Nat := 0x19

/-- Command code `PMBUS_C_VOUT_MODE`. -/
def PMBUS_C_VOUT_MODE : Nat := 0x20

/-- Command code `PMBUS_C_FAN_CONFIG_1_2`. -/
def PMBUS_C_FAN_CONFIG_1_2 : Nat := 0x3a

/-- Bit `PMBUS_FAN_CONFIG_A_INSTALLED`, `BIT(7)`. -/
def PMBUS_FAN_CONFIG_A_INSTALLED : Nat := BIT 7

/-- Command code `PMBUS_C_FAN_COMMAND_1`. -/
def PMBUS_C_FAN_COMMAND_1 : Nat := 0x3b

/-- Command code `PMBUS_C_FAN_COMMAND_2`. -/
def PMBUS_C_FAN_COMMAND_2 : Nat := 0x3c

/-- Command code `PMBUS_C_FAN_CONFIG_3_4`. -/
def PMBUS_C_FAN_CONFIG_3_4 : Nat := 0x3d

/-- Command code `PMBUS_C_FAN_COMMAND_3`. -/
def PMBUS_C_FAN_COMMAND_3 : Nat := 0x3e

/-- Command code `PMBUS_C_FAN_COMMAND_4`. -/
def PMBUS_C_FAN_COMMAND_4 : Nat := 0x3f

/-- Command code `PMBUS_C_STATUS_BYTE`. -/
def PMBUS_C_STATUS_BYTE : Nat := 0x78

/-- Bit `PMBUS_STATUS_BYTE_CML`, `BIT(1)`. -/
def PMBUS_STATUS_BYTE_CML : Nat := BIT 1

/-- Bit `PMBUS_STATUS_CML_INV_CMD`, `BIT(7)`. -/
def PMBUS_STATUS_CML_INV_CMD : Nat := BIT 7

/-- Command code `PMBUS_C_STATUS_FANS_1_2`. -/
def PMBUS_C_STATUS_FANS_1_2 : Nat := 0x81

/-- Command code `PMBUS_C_STATUS_FANS_3_4`. -/
def PMBUS_C_STATUS_FANS_3_4 : Nat := 0x82

/-- Command code `PMBUS_C_READ_FAN_SPEED_1`. -/
def PMBUS_C_READ_FAN_SPEED_1 : Nat := 0x90

/-- Number of values of a `uint8_t`. -/
abbrev UINT8_SIZE : Nat := 256

/-- Number of values of a `uint16_t`. -/
abbrev UINT16_SIZE : Nat := 65536

/-- Conversion of a value to `uint8_t`. -/
def u8 (v : Nat) : Fin UINT8_SIZE := ⟨v % UINT8_SIZE, Nat.mod_lt v (by decide)⟩

/-- Conversion of a value to `uint16_t`. -/
def u16 (v : Nat) : Fin UINT16_SIZE := ⟨v % UINT16_SIZE, Nat.mod_lt v (by decide)⟩

/-- The structure `PMBusPage`. A member of 16 bits holds the value of its two bytes in
memory read least significant byte first, which is what `le16toh` makes of it on a host
of either byte order. -/
structure PMBusPage where
  capability : Fin UINT8_SIZE
  vout_mode : Fin UINT8_SIZE
  fan_config_1_2 : Fin UINT8_SIZE
  fan_command_1 : Fin UINT16_SIZE
  fan_command_2 : Fin UINT16_SIZE
  fan_config_3_4 : Fin UINT8_SIZE
  fan_command_3 : Fin UINT16_SIZE
  fan_command_4 : Fin UINT16_SIZE
  status_byte : Fin UINT8_SIZE
  status_fans_1_2 : Fin UINT8_SIZE
  status_fans_3_4 : Fin UINT8_SIZE
  fan_speed_1 : Fin UINT16_SIZE
  status_cml : Fin UINT8_SIZE
deriving DecidableEq

/-- The structure `PMBusDevice`: the selected page, the number of pages and the array
`pages`. `guest_errors` counts the guest errors reported. -/
structure PMBusDevice where
  page : Fin UINT8_SIZE
  nr_pages : Fin UINT8_SIZE
  pages : List PMBusPage
  guest_errors : Nat
deriving DecidableEq

/-- A page as `calloc` returns it: every member zero. -/
def zeroPage : PMBusPage :=
  { capability := 0
    vout_mode := 0
    fan_config_1_2 := 0
    fan_command_1 := 0
    fan_command_2 := 0
    fan_config_3_4 := 0
    fan_command_3 := 0
    fan_command_4 := 0
    status_byte := 0
    status_fans_1_2 := 0
    status_fans_3_4 := 0
    fan_speed_1 := 0
    status_cml := 0 }

/-- The device before `pmbus_initfn`: the object is allocated with every member zero. -/
def zeroDevice : PMBusDevice :=
  { page := 0
    nr_pages := 0
    pages := []
    guest_errors := 0 }

/-- The page `pmbus->pages[pmbus->page]`, when the index is inside the array. -/
def current_page (s : PMBusDevice) : Option PMBusPage := s.pages[s.page.val]?

/-- A store through `pg = &pmbus->pages[pmbus->page]`: the selected page becomes `f pg`.
There is no result when the index is outside the array. -/
def update_page (s : PMBusDevice) (f : PMBusPage → PMBusPage) : Option PMBusDevice :=
  match s.pages[s.page.val]? with
  | none => none
  | some pg => some { s with pages := s.pages.set s.page.val (f pg) }

/-- The two stores of the `default` case of the three handlers:
`pg->status_byte |= PMBUS_STATUS_BYTE_CML` and
`pg->status_cml |= PMBUS_STATUS_CML_INV_CMD`. -/
def latch_invalid_command (pg : PMBusPage) : PMBusPage :=
  { pg with
    status_byte := u8 (pg.status_byte.val ||| PMBUS_STATUS_BYTE_CML)
    status_cml := u8 (pg.status_cml.val ||| PMBUS_STATUS_CML_INV_CMD) }

/-- Function `pmbus_send_byte`. -/
def pmbus_send_byte (s : PMBusDevice) (cmd : Nat) : Option PMBusDevice :=
  if cmd = PMBUS_C_CLEAR_FAULTS then
    update_page s fun pg => { pg with status_byte := 0, status_cml := 0 }
  else
    update_page s latch_invalid_command

/-- The copy `memcpy(&field, buf, sizeof(field))` of two bytes into a member of 16 bits;
there is no result when `buf` has fewer than two bytes. -/
def memcpy16 (buf : List (Fin UINT8_SIZE)) : Option (Fin UINT16_SIZE) :=
  match buf with
  | b0 :: b1 :: _ => some (u16 (b0.val + 256 * b1.val))
  | _ => none

/-- The guest error `Unexpected length` of `pmbus_write_data`. -/
def log_unexpected_length (s : PMBusDevice) : PMBusDevice :=
  { s with guest_errors := s.guest_errors + 1 }

/-- Function `pmbus_write_data`. `buf` is the buffer and `len` the length the caller
passes; `*buf` is the first byte of the buffer. There is no result when the selected
page is used and lies outside the array, or when the buffer is read past its end. -/
def pmbus_write_data (s : PMBusDevice) (cmd : Nat) (buf : List (Fin UINT8_SIZE)) (len : Int) :
    Option PMBusDevice :=
  if cmd = PMBUS_C_PAGE then
    match buf.head? with
    | none => none
    | some b => some { s with page := b }
  else if cmd = PMBUS_C_FAN_CONFIG_1_2 then
    match buf.head? with
    | none => none
    | some b => update_page s fun pg => { pg with fan_config_1_2 := b }
  else if cmd = PMBUS_C_FAN_COMMAND_1 then
    if len ≠ 2 then some (log_unexpected_length s)
    else
      match memcpy16 buf with
      | none => none
      | some v => update_page s fun pg => { pg with fan_command_1 := v }
  else if cmd = PMBUS_C_FAN_COMMAND_2 then
    if len ≠ 2 then some (log_unexpected_length s)
    else
      match memcpy16 buf with
      | none => none
      | some v => update_page s fun pg => { pg with fan_command_2 := v }
  else if cmd = PMBUS_C_FAN_CONFIG_3_4 then
    match buf.head? with
    | none => none
    | some b => update_page s fun pg => { pg with fan_config_3_4 := b }
  else if cmd = PMBUS_C_FAN_COMMAND_3 then
    if len ≠ 2 then some (log_unexpected_length s)
    else
      match memcpy16 buf with
      | none => none
      | some v => update_page s fun pg => { pg with fan_command_3 := v }
  else if cmd = PMBUS_C_FAN_COMMAND_4 then
    if len ≠ 2 then some (log_unexpected_length s)
    else
      match memcpy16 buf with
      | none => none
      | some v => update_page s fun pg => { pg with fan_command_4 := v }
  else if cmd = PMBUS_C_STATUS_FANS_1_2 then
    match buf.head? with
    | none => none
    | some b => update_page s fun pg => { pg with status_fans_1_2 := b }
  else if cmd = PMBUS_C_STATUS_FANS_3_4 then
    match buf.head? with
    | none => none
    | some b => update_page s fun pg => { pg with status_fans_3_4 := b }
  else
    update_page s latch_invalid_command

/-- The byte `le16toh(field) >> (8 * n)` stored into the `uint8_t val`. The member is
promoted to `int`, so the shift has a defined value only for `0 <= 8 * n < 32`. -/
def byte_of16 (field : Fin UINT16_SIZE) (n : Int) : Option Nat :=
  if 0 ≤ n ∧ 8 * n < 32 then some ((field.val >>> (8 * n.toNat)) % UINT8_SIZE) else none

/-- Function `pmbus_read_data`: the value returned and the device after the call. There
is no result when the selected page is used and lies outside the array. -/
def pmbus_read_data (s : PMBusDevice) (cmd : Nat) (n : Int) : Option (Nat × PMBusDevice) :=
  if cmd = PMBUS_C_PAGE then
    some (s.page.val, s)
  else if cmd = PMBUS_C_CAPABILITY then
    (current_page s).map fun pg => (pg.capability.val, s)
  else if cmd = PMBUS_C_VOUT_MODE then
    (current_page s).map fun pg => (pg.vout_mode.val, s)
  else if cmd = PMBUS_C_FAN_CONFIG_1_2 then
    (current_page s).map fun pg => (pg.fan_config_1_2.val, s)
  else if cmd = PMBUS_C_FAN_COMMAND_1 then
    (current_page s).bind fun pg => (byte_of16 pg.fan_command_1 n).map fun v => (v, s)
  else if cmd = PMBUS_C_FAN_COMMAND_2 then
    (current_page s).bind fun pg => (byte_of16 pg.fan_command_2 n).map fun v => (v, s)
  else if cmd = PMBUS_C_FAN_CONFIG_3_4 then
    (current_page s).map fun pg => (pg.fan_config_3_4.val, s)
  else if cmd = PMBUS_C_FAN_COMMAND_3 then
    (current_page s).bind fun pg => (byte_of16 pg.fan_command_3 n).map fun v => (v, s)
  else if cmd = PMBUS_C_FAN_COMMAND_4 then
    (current_page s).bind fun pg => (byte_of16 pg.fan_command_4 n).map fun v => (v, s)
  else if cmd = PMBUS_C_STATUS_BYTE then
    (current_page s).map fun pg => (pg.status_byte.val, s)
  else if cmd = PMBUS_C_STATUS_FANS_1_2 then
    (current_page s).map fun pg => (pg.status_fans_1_2.val, s)
  else if cmd = PMBUS_C_STATUS_FANS_3_4 then
    (current_page s).map fun pg => (pg.status_fans_3_4.val, s)
  else if cmd = PMBUS_C_READ_FAN_SPEED_1 then
    (current_page s).bind fun pg =>
      let speed : Fin UINT16_SIZE := if n = 0 then u16 (pg.fan_speed_1.val + 100) else pg.fan_speed_1
      (byte_of16 speed n).bind fun v =>
        (update_page s fun p => { p with fan_speed_1 := speed }).map fun s' => (v, s')
  else
    (update_page s latch_invalid_command).map fun s' => (0, s')

/-- Function `pmbus_initfn` on the path where `calloc` succeeds (`calloc_ok`); on the
other path it returns -1 and there is no device. -/
def pmbus_initfn (calloc_ok : Bool) (s : PMBusDevice) : Option PMBusDevice :=
  if calloc_ok then
    some { s with
      nr_pages := 23
      pages := (List.range 23).map fun i =>
        { zeroPage with
          vout_mode := 0x40
          fan_config_1_2 := if i < 6 then u8 PMBUS_FAN_CONFIG_A_INSTALLED else 0 } }
  else none

/-- A command the bus delivers to the device. -/
inductive PMBusCommand where
  | send_byte (cmd : Nat)
  | write_data (cmd : Nat) (buf : List (Fin UINT8_SIZE)) (len : Int)
  | read_data (cmd : Nat) (n : Int)

/-- The device after one command. -/
def pmbus_step (s : PMBusDevice) : PMBusCommand → Option PMBusDevice
  | PMBusCommand.send_byte cmd => pmbus_send_byte s cmd
  | PMBusCommand.write_data cmd buf len => pmbus_write_data s cmd buf len
  | PMBusCommand.read_data cmd n => (pmbus_read_data s cmd n).map fun r => r.2

/-- The device after a sequence of commands. -/
def pmbus_run (s : PMBusDevice) : List PMBusCommand → Option PMBusDevice
  | [] => some s
  | c :: cs => (pmbus_step s c).bind fun s' => pmbus_run s' cs

/-- The initialised device: `pmbus_initfn` on the zeroed object. -/
def initDevice : PMBusDevice :=
  { page := 0
    nr_pages := 23
    pages := (List.range 23).map fun i =>
      { zeroPage with
        vout_mode := 0x40
        fan_config_1_2 := if i < 6 then u8 PMBUS_FAN_CONFIG_A_INSTALLED else 0 }
    guest_errors := 0 }

/-- The command codes `pmbus_send_byte` has a case for. -/
def send_byte_codes : List Nat := [PMBUS_C_CLEAR_FAULTS]

/-- The command codes `pmbus_write_data` has a case for. -/
def write_data_codes : List Nat :=
  [PMBUS_C_PAGE, PMBUS_C_FAN_CONFIG_1_2, PMBUS_C_FAN_COMMAND_1, PMBUS_C_FAN_COMMAND_2,
    PMBUS_C_FAN_CONFIG_3_4, PMBUS_C_FAN_COMMAND_3, PMBUS_C_FAN_COMMAND_4,
    PMBUS_C_STATUS_FANS_1_2, PMBUS_C_STATUS_FANS_3_4]

/-- The command codes `pmbus_read_data` has a case for. -/
def read_data_codes : List Nat :=
  [PMBUS_C_PAGE, PMBUS_C_CAPABILITY, PMBUS_C_VOUT_MODE, PMBUS_C_FAN_CONFIG_1_2,
    PMBUS_C_FAN_COMMAND_1, PMBUS_C_FAN_COMMAND_2, PMBUS_C_FAN_CONFIG_3_4,
    PMBUS_C_FAN_COMMAND_3, PMBUS_C_FAN_COMMAND_4, PMBUS_C_STATUS_BYTE,
    PMBUS_C_STATUS_FANS_1_2, PMBUS_C_STATUS_FANS_3_4, PMBUS_C_READ_FAN_SPEED_1]

/-- The four fan command codes. -/
def fan_command_codes : List Nat :=
  [PMBUS_C_FAN_COMMAND_1, PMBUS_C_FAN_COMMAND_2, PMBUS_C_FAN_COMMAND_3, PMBUS_C_FAN_COMMAND_4]

/-- A device whose array `pages` has `nr_pages` entries and whose selected page is one
of them. -/
def valid_page (s : PMBusDevice) : Prop :=
  s.pages.length = s.nr_pages.val ∧ s.page.val < s.nr_pages.val

/-- From `s` to `s'` the selected page index, the number of pages and every page other
than the selected one are unchanged. -/
def other_pages_kept (s s' : PMBusDevice) : Prop :=
  s'.page = s.page ∧ s'.nr_pages = s.nr_pages ∧ s'.pages.length = s.pages.length
    ∧ ∀ j, j ≠ s.page.val → s'.pages[j]? = s.pages[j]?

/-- From page `pg` to page `pg'` no member changes other than the fan command that the
command code `c` names. -/
def other_fields_kept (c : Nat) (pg pg' : PMBusPage) : Prop :=
  pg'.capability = pg.capability ∧ pg'.vout_mode = pg.vout_mode
    ∧ pg'.fan_config_1_2 = pg.fan_config_1_2 ∧ pg'.fan_config_3_4 = pg.fan_config_3_4
    ∧ pg'.status_byte = pg.status_byte ∧ pg'.status_fans_1_2 = pg.status_fans_1_2
    ∧ pg'.status_fans_3_4 = pg.status_fans_3_4 ∧ pg'.fan_speed_1 = pg.fan_speed_1
    ∧ pg'.status_cml = pg.status_cml
    ∧ (c ≠ PMBUS_C_FAN_COMMAND_1 → pg'.fan_command_1 = pg.fan_command_1)
    ∧ (c ≠ PMBUS_C_FAN_COMMAND_2 → pg'.fan_command_2 = pg.fan_command_2)
    ∧ (c ≠ PMBUS_C_FAN_COMMAND_3 → pg'.fan_command_3 = pg.fan_command_3)
    ∧ (c ≠ PMBUS_C_FAN_COMMAND_4 → pg'.fan_command_4 = pg.fan_command_4)

/-- From `s` to `s'` the invalid-command error is latched: in the selected page the CML
bit (bit 1) of `status_byte` and the INV_CMD bit (bit 7) of `status_cml` are set, no
other bit and no other member of the page changes, and nothing else changes. -/
def invalid_command_latched (s s' : PMBusDevice) : Prop :=
  ∃ pg pg', current_page s = some pg ∧ current_page s' = some pg'
    ∧ pg'.status_byte.val = pg.status_byte.val ||| 2
    ∧ pg'.status_cml.val = pg.status_cml.val ||| 128
    ∧ pg' = { pg with status_byte := pg'.status_byte, status_cml := pg'.status_cml }
    ∧ other_pages_kept s s'

/-- A page with a fan command and some status bits set. -/
def fanPage : PMBusPage :=
  { zeroPage with
    vout_mode := 0x40
    fan_config_1_2 := u8 PMBUS_FAN_CONFIG_A_INSTALLED
    fan_command_1 := 0x1234
    status_byte := 5
    status_cml := 1 }

/-- The initialised device with `fanPage` as its page 0. -/
def fanDevice : PMBusDevice :=
  { initDevice with pages := initDevice.pages.set 0 fanPage }

end PMBus

namespace AspeedGpio

/-! ## Lemmas on masks, words and the register file -/

theorem pin_position (n : Nat) : TO_INDEX n + 8 * TO_BANK n = n % 32 := by
  unfold TO_INDEX TO_BANK
  omega

theorem GROUP_BIT_eq_two_pow (n : Nat) : GROUP_BIT n = 2 ^ (n % 32) := by
  unfold GROUP_BIT BIT
  rw [← Nat.shiftLeft_add, Nat.one_shiftLeft, pin_position]

theorem GROUP_BIT_lt (n : Nat) : GROUP_BIT n < UINT32_SIZE := by
  rw [GROUP_BIT_eq_two_pow]
  have h : n % 32 < 32 := Nat.mod_lt n (by decide)
  calc 2 ^ (n % 32) < 2 ^ 32 := Nat.pow_lt_pow_right (by decide) h
    _ = UINT32_SIZE := by decide

theorem GROUP_BIT_ne_zero (n : Nat) : GROUP_BIT n ≠ 0 := by
  rw [GROUP_BIT_eq_two_pow]
  exact (Nat.pos_pow_of_pos _ (by decide)).ne'

theorem testBit_GROUP_BIT (n i : Nat) : (GROUP_BIT n).testBit i = decide (n % 32 = i) := by
  rw [GROUP_BIT_eq_two_pow, Nat.testBit_two_pow]

theorem and_GROUP_BIT (x n : Nat) :
    x &&& GROUP_BIT n = if x.testBit (n % 32) then GROUP_BIT n else 0 := by
  rw [GROUP_BIT_eq_two_pow, Nat.and_two_pow]
  cases x.testBit (n % 32) <;> simp

theorem and_GROUP_BIT_ne_zero (x n : Nat) :
    (x &&& GROUP_BIT n != 0) = x.testBit (n % 32) := by
  rw [and_GROUP_BIT]
  cases x.testBit (n % 32) <;> simp [GROUP_BIT_ne_zero]

theorem rd_lt (s : AspeedGPIOState) (i : Nat) : rd s i < UINT32_SIZE := (s.regs i).isLt

theorem rd_wr (s : AspeedGPIOState) (i v j : Nat) :
    rd (wr s i v) j = if j = i then v % UINT32_SIZE else rd s j := by
  unfold rd wr u32
  by_cases h : j = i <;> simp [h]

theorem rd_log (s : AspeedGPIOState) (i : Nat) : rd (qemu_log_guest_error s) i = rd s i := rfl

theorem rd_raise (s : AspeedGPIOState) (i : Nat) : rd (qemu_irq_raise s) i = rd s i := rfl

theorem testBit_NOT64 (x i : Nat) : (NOT64 x).testBit i = (decide (i < 64) ^^ x.testBit i) := by
  unfold NOT64
  have h : (18446744073709551615 : Nat) = 2 ^ 64 - 1 := by decide
  rw [h, Nat.testBit_xor, Nat.testBit_two_pow_sub_one]

/-- The data word after the two stores of the handler: bit `n % 32` carries the new
level and the other bits are those of the word before. -/
theorem testBit_data_update (x n i : Nat) (b : Bool) (hx : x < UINT32_SIZE) :
    (((x &&& NOT64 (GROUP_BIT n)) % UINT32_SIZE
        ||| (if b then GROUP_BIT n else 0) % UINT32_SIZE) % UINT32_SIZE).testBit i
      = if i = n % 32 then b else x.testBit i := by
  have h32 : UINT32_SIZE = 2 ^ 32 := by decide
  have hk : n % 32 < 32 := Nat.mod_lt n (by decide)
  have hxi : 32 ≤ i → x.testBit i = false := fun hi =>
    Nat.testBit_lt_two_pow (lt_of_lt_of_le (h32 ▸ hx) (Nat.pow_le_pow_right (by decide) hi))
  rw [h32]
  simp only [Nat.testBit_mod_two_pow, Nat.testBit_or, Nat.testBit_and, testBit_NOT64]
  by_cases hi : i = n % 32
  · subst hi
    have h64 : n % 32 < 64 := by omega
    cases b <;> simp [testBit_GROUP_BIT, hk, h64]
  · have hi' : ¬ n % 32 = i := fun h => hi h.symm
    by_cases hlt : i < 32
    · have h64 : i < 64 := by omega
      cases b <;> simp [testBit_GROUP_BIT, hi, hi', hlt, h64]
    · have := hxi (by omega)
      cases b <;> simp [testBit_GROUP_BIT, hi, hi', hlt, this]

theorem pin_bit_eq (s : AspeedGPIOState) (word n : Nat) :
    pin_bit s word n = (rd s word).testBit (n % 32) := and_GROUP_BIT_ne_zero _ _

/-- The two entries of `gpio_groups`: pins 0 to 31 and pins 32 to 63. -/
theorem group_cases {n : Nat} {g : aspeed_gpio_group} (h : gpio_groups[TO_GROUP n]? = some g) :
    (n < 32 ∧ g = group_ABCD) ∨ (32 ≤ n ∧ n < 64 ∧ g = group_EFGH) := by
  unfold TO_GROUP at h
  have h2 : n / (8 * 4) < 2 := by
    by_contra hc
    have : gpio_groups.length ≤ n / (8 * 4) := by simpa [gpio_groups] using hc
    rw [List.getElem?_eq_none this] at h
    cases h
  have h3 : n / (8 * 4) = 0 ∨ n / (8 * 4) = 1 := by omega
  rcases h3 with h0 | h1
  · left
    rw [h0] at h
    refine ⟨by omega, ?_⟩
    simpa [gpio_groups] using h.symm
  · right
    rw [h1] at h
    refine ⟨by omega, by omega, ?_⟩
    simpa [gpio_groups] using h.symm

/-- A pin number that passes the range test and has an entry in `gpio_groups` is
processed: the direction test reports a guest error for an output pin, and the rest of
the handler runs in either case. -/
theorem aspeed_gpio_irq_accept (s : AspeedGPIOState) (n : Nat) (level : Int)
    (g : aspeed_gpio_group) (hn : n ≤ s.nr_gpios) (hg : gpio_groups[TO_GROUP n]? = some g) :
    aspeed_gpio_irq s n level
      = some (irq_tail (if !aspeed_gpio_is_input s g n then qemu_log_guest_error s else s)
          g n level) := by
  have hn' : ¬ n > s.nr_gpios := by omega
  have ho : ¬ aspeed_gpio_output_only s n = true := by simp [aspeed_gpio_output_only]
  unfold aspeed_gpio_irq
  rw [if_neg hn', if_neg ho, hg]
  simp only [irq_tail, apply_ite some]

theorem wr_wr_same (s : AspeedGPIOState) (i a b : Nat) : wr (wr s i a) i b = wr s i b := by
  unfold wr
  congr 1
  funext j
  by_cases h : j = i <;> simp [h]

theorem wr_mod (s : AspeedGPIOState) (i v : Nat) : wr s i (v % UINT32_SIZE) = wr s i v := by
  unfold wr u32
  simp

theorem old_eq (x n : Nat) :
    (x &&& GROUP_BIT n) % UINT32_SIZE = if x.testBit (n % 32) then GROUP_BIT n else 0 := by
  rw [and_GROUP_BIT]
  split
  · exact Nat.mod_eq_of_lt (GROUP_BIT_lt n)
  · rfl

theorem new_eq (n : Nat) (level : Int) :
    (if level ≠ 0 then GROUP_BIT n else 0) % UINT32_SIZE
      = if level ≠ 0 then GROUP_BIT n else 0 := by
  split
  · exact Nat.mod_eq_of_lt (GROUP_BIT_lt n)
  · rfl

/-- The handler on a pin of group A/B/C/D, in closed form: the data word takes the new
level, and `irq_status` takes the mask of the pin and the line is raised exactly when
the pin is enabled and the qualification rule holds on the state before. -/
theorem irq_tail_group0 (s1 : AspeedGPIOState) (n : Nat) (level : Int) :
    irq_tail s1 group_ABCD n level
      = if (aspeed_gpio_irq_enabled s1 group_ABCD n
              && pin_fire s1 group_ABCD n level) = true then
          qemu_irq_raise (wr (wr s1 0 (data_after (rd s1 0) n level)) 6
            (rd s1 6 ||| GROUP_BIT n))
        else wr s1 0 (data_after (rd s1 0) n level) := by
  have hG := GROUP_BIT_ne_zero n
  rw [show group_ABCD = ⟨0, 1, 2, 3, 6, 7, 16⟩ from rfl]
  unfold irq_tail
  simp only [wr_wr_same, rd_wr, if_true]
  simp only [aspeed_gpio_irq_enabled, aspeed_gpio_irq_low, aspeed_gpio_irq_high,
    aspeed_gpio_irq_rising, aspeed_gpio_irq_falling, aspeed_gpio_irq_both, rd_wr, pin_fire,
    pin_bit, spec_fire, old_eq, new_eq, and_GROUP_BIT_ne_zero]
  simp only [show ¬ (2 = 0) by decide, show ¬ (3 + 0 = 0) by decide, show ¬ (3 + 1 = 0) by decide, show ¬ (3 + 2 = 0) by decide, show ¬ (6 = 0) by decide, if_false]
  simp only [data_after, wr_mod, new_eq]
  by_cases hl : level = 0
  · subst hl
    cases (rd s1 2).testBit (n % 32) <;> cases (rd s1 (3 + 2)).testBit (n % 32) <;>
      cases (rd s1 (3 + 1)).testBit (n % 32) <;> cases (rd s1 (3 + 0)).testBit (n % 32) <;>
      cases (rd s1 0).testBit (n % 32) <;> simp [hG]
  · cases (rd s1 2).testBit (n % 32) <;> cases (rd s1 (3 + 2)).testBit (n % 32) <;>
      cases (rd s1 (3 + 1)).testBit (n % 32) <;> cases (rd s1 (3 + 0)).testBit (n % 32) <;>
      cases (rd s1 0).testBit (n % 32) <;> simp [hG, hl, Ne.symm hG]

theorem or_GROUP_BIT_of_testBit (x n : Nat) (h : x.testBit (n % 32) = true) :
    x ||| GROUP_BIT n = x := by
  apply Nat.eq_of_testBit_eq
  intro i
  rw [Nat.testBit_or, testBit_GROUP_BIT]
  by_cases hi : n % 32 = i
  · subst hi
    simp [h]
  · simp [hi]

theorem testBit_data_after (x n i : Nat) (level : Int) (hx : x < UINT32_SIZE) :
    (data_after x n level).testBit i
      = if i = n % 32 then decide (level ≠ 0) else x.testBit i := by
  have h := testBit_data_update x n i (decide (level ≠ 0)) hx
  simpa [data_after] using h

theorem data_after_lt (x n : Nat) (level : Int) : data_after x n level < UINT32_SIZE :=
  Nat.mod_lt _ (by decide)

theorem wr_rd_same (s : AspeedGPIOState) (i : Nat) : wr s i (rd s i) = s := by
  cases s with
  | mk regs nr rev irq raises errs =>
    unfold wr rd u32
    simp only [AspeedGPIOState.mk.injEq, and_true]
    funext j
    by_cases h : j = i
    · subst h
      simp [Nat.mod_eq_of_lt (regs j).isLt]
    · simp [h]

/-- The handler on a pin of group E/F/G/H, in closed form: every register of the group
is word 0 (the sense words are 0, 1 and 2), so the only word written is word 0. -/
theorem irq_tail_group1 (s1 : AspeedGPIOState) (n : Nat) (level : Int) :
    irq_tail s1 group_EFGH n level
      = if (decide (level ≠ 0) && ((!pin_bit s1 2 n && pin_bit s1 1 n) || !pin_bit s1 0 n))
            = true then
          qemu_irq_raise (wr s1 0 (data_after (rd s1 0) n level))
        else wr s1 0 (data_after (rd s1 0) n level) := by
  have hG := GROUP_BIT_ne_zero n
  rw [show group_EFGH = ⟨0, 0, 0, 0, 0, 0, 0⟩ from rfl]
  have hd : ∀ x, x < UINT32_SIZE → level ≠ 0 →
      (data_after x n level ||| GROUP_BIT n) = data_after x n level := fun x hx hl =>
    or_GROUP_BIT_of_testBit _ _ (by rw [testBit_data_after _ _ _ _ hx]; simp [hl])
  have hb : (data_after (rd s1 0) n level).testBit (n % 32) = decide (level ≠ 0) := by
    rw [testBit_data_after _ _ _ _ (rd_lt _ _)]; simp
  have hm : data_after (rd s1 0) n level % UINT32_SIZE = data_after (rd s1 0) n level :=
    Nat.mod_eq_of_lt (data_after_lt _ _ _)
  have key : wr s1 0 ((rd s1 0 &&& NOT64 (GROUP_BIT n)) % UINT32_SIZE |||
      (if level ≠ 0 then GROUP_BIT n else 0) % UINT32_SIZE) = wr s1 0 (data_after (rd s1 0) n level) := by
    rw [data_after, wr_mod]
  unfold irq_tail
  simp only [wr_wr_same, rd_wr, if_true, key]
  simp only [aspeed_gpio_irq_enabled, aspeed_gpio_irq_low, aspeed_gpio_irq_high,
    aspeed_gpio_irq_rising, aspeed_gpio_irq_falling, aspeed_gpio_irq_both, rd_wr,
    pin_bit, old_eq, new_eq, and_GROUP_BIT_ne_zero, hm]
  simp only [show ¬ (0 + 1 = 0) by decide, show ¬ (0 + 2 = 0) by decide, if_false, if_true,
    Nat.add_zero, Nat.zero_add]
  by_cases hl : level = 0
  · have hb0 : (data_after (rd s1 0) n level).testBit (n % 32) = false := by
      rw [hb]; simp [hl]
    subst hl
    simp [hb0]
  · have hb1 : (data_after (rd s1 0) n level).testBit (n % 32) = true := by
      rw [hb]; simp [hl]
    rw [hd _ (rd_lt _ _) hl]
    simp only [hb1]
    cases (rd s1 2).testBit (n % 32) <;> cases (rd s1 1).testBit (n % 32) <;>
      cases (rd s1 0).testBit (n % 32) <;> simp [hG, hl, Ne.symm hG]

/-! ## The handler on the two groups of the table -/

theorem group_ABCD_fields : group_ABCD.data = 0 ∧ group_ABCD.dir = 1 ∧ group_ABCD.irq_enable = 2
    ∧ group_ABCD.irq_sense = 3 ∧ group_ABCD.irq_status = 6 := by decide

theorem testBit_status_update (x n : Nat) :
    ((x ||| GROUP_BIT n) % UINT32_SIZE).testBit (n % 32) = true := by
  have h32 : UINT32_SIZE = 2 ^ 32 := by decide
  have hk : n % 32 < 32 := Nat.mod_lt n (by decide)
  rw [h32, Nat.testBit_mod_two_pow, Nat.testBit_or, testBit_GROUP_BIT]
  simp [hk]

theorem irq_tail_of_input (s : AspeedGPIOState) (n : Nat) (level : Int) (g : aspeed_gpio_group)
    (hn : n ≤ s.nr_gpios) (hg : gpio_groups[TO_GROUP n]? = some g)
    (hin : aspeed_gpio_is_input s g n = true) :
    aspeed_gpio_irq s n level = some (irq_tail s g n level) := by
  rw [aspeed_gpio_irq_accept s n level g hn hg]
  simp [hin]

theorem data_after_mod (x n : Nat) (level : Int) :
    data_after x n level % UINT32_SIZE = data_after x n level :=
  Nat.mod_eq_of_lt (data_after_lt x n level)

theorem rd_irq_tail_data (s : AspeedGPIOState) (n : Nat) (level : Int) (g : aspeed_gpio_group)
    (hg : gpio_groups[TO_GROUP n]? = some g) :
    rd (irq_tail s g n level) g.data = data_after (rd s g.data) n level := by
  rcases group_cases hg with ⟨_, rfl⟩ | ⟨_, _, rfl⟩
  · rw [irq_tail_group0, group_ABCD_fields.1]
    split
    · rw [rd_raise, rd_wr, if_neg (by decide), rd_wr, if_pos rfl, data_after_mod]
    · rw [rd_wr, if_pos rfl, data_after_mod]
  · rw [irq_tail_group1, show group_EFGH.data = 0 from rfl]
    split
    · rw [rd_raise, rd_wr, if_pos rfl, data_after_mod]
    · rw [rd_wr, if_pos rfl, data_after_mod]

theorem irq_tail_fire (s : AspeedGPIOState) (n : Nat) (level : Int)
    (hc : aspeed_gpio_irq_enabled s group_ABCD n = true ∧ pin_fire s group_ABCD n level = true) :
    pin_bit (irq_tail s group_ABCD n level) group_ABCD.irq_status n = true
      ∧ (irq_tail s group_ABCD n level).irq = true
      ∧ (irq_tail s group_ABCD n level).irq_raises = s.irq_raises + 1 := by
  have hc' : (aspeed_gpio_irq_enabled s group_ABCD n && pin_fire s group_ABCD n level) = true := by
    simpa using hc
  rw [irq_tail_group0, if_pos hc', group_ABCD_fields.2.2.2.2]
  refine ⟨?_, rfl, rfl⟩
  rw [pin_bit_eq, rd_raise, rd_wr, if_pos rfl]
  exact testBit_status_update _ _

theorem irq_tail_quiet (s : AspeedGPIOState) (n : Nat) (level : Int)
    (hc : ¬ (aspeed_gpio_irq_enabled s group_ABCD n = true
      ∧ pin_fire s group_ABCD n level = true)) :
    irq_tail s group_ABCD n level = wr s 0 (data_after (rd s 0) n level) := by
  have hc' : ¬ (aspeed_gpio_irq_enabled s group_ABCD n && pin_fire s group_ABCD n level) = true := by
    simpa using hc
  rw [irq_tail_group0, if_neg hc']

theorem data_after_same (x n : Nat) (level : Int) (hx : x < UINT32_SIZE)
    (h : x.testBit (n % 32) = decide (level ≠ 0)) : data_after x n level = x := by
  apply Nat.eq_of_testBit_eq
  intro i
  rw [testBit_data_after x n i level hx]
  split
  · next hi => rw [hi, h]
  · rfl

/-- A call that neither changes the level of the pin nor fires leaves the state as it is. -/
theorem irq_tail_noop (s : AspeedGPIOState) (n : Nat) (level : Int)
    (hb : pin_bit s group_ABCD.data n = decide (level ≠ 0))
    (hc : ¬ (aspeed_gpio_irq_enabled s group_ABCD n = true
      ∧ pin_fire s group_ABCD n level = true)) :
    irq_tail s group_ABCD n level = s := by
  rw [irq_tail_quiet s n level hc]
  rw [pin_bit_eq, group_ABCD_fields.1] at hb
  rw [data_after_same _ _ _ (rd_lt _ _) hb, wr_rd_same]

theorem rd_irq_tail_config (s : AspeedGPIOState) (n : Nat) (level : Int) (j : Nat)
    (h0 : j ≠ 0) (h6 : j ≠ 6) : rd (irq_tail s group_ABCD n level) j = rd s j := by
  rw [irq_tail_group0]
  split
  · rw [rd_raise, rd_wr, if_neg h6, rd_wr, if_neg h0]
  · rw [rd_wr, if_neg h0]

/-- The handler leaves the direction, enable and sense bits of group A/B/C/D as they are. -/
theorem irq_tail_config (s : AspeedGPIOState) (n m : Nat) (level : Int) :
    aspeed_gpio_is_input (irq_tail s group_ABCD n level) group_ABCD m
        = aspeed_gpio_is_input s group_ABCD m
      ∧ aspeed_gpio_irq_enabled (irq_tail s group_ABCD n level) group_ABCD m
        = aspeed_gpio_irq_enabled s group_ABCD m
      ∧ aspeed_gpio_irq_low (irq_tail s group_ABCD n level) group_ABCD m
        = aspeed_gpio_irq_low s group_ABCD m
      ∧ aspeed_gpio_irq_high (irq_tail s group_ABCD n level) group_ABCD m
        = aspeed_gpio_irq_high s group_ABCD m
      ∧ aspeed_gpio_irq_rising (irq_tail s group_ABCD n level) group_ABCD m
        = aspeed_gpio_irq_rising s group_ABCD m
      ∧ aspeed_gpio_irq_falling (irq_tail s group_ABCD n level) group_ABCD m
        = aspeed_gpio_irq_falling s group_ABCD m
      ∧ aspeed_gpio_irq_both (irq_tail s group_ABCD n level) group_ABCD m
        = aspeed_gpio_irq_both s group_ABCD m := by
  have h1 := rd_irq_tail_config s n level 1 (by decide) (by decide)
  have h2 := rd_irq_tail_config s n level 2 (by decide) (by decide)
  have h3 := rd_irq_tail_config s n level 3 (by decide) (by decide)
  have h4 := rd_irq_tail_config s n level 4 (by decide) (by decide)
  have h5 := rd_irq_tail_config s n level 5 (by decide) (by decide)
  unfold aspeed_gpio_is_input aspeed_gpio_irq_enabled aspeed_gpio_irq_low aspeed_gpio_irq_high
    aspeed_gpio_irq_rising aspeed_gpio_irq_falling aspeed_gpio_irq_both
  simp only [show group_ABCD.dir = 1 from rfl, show group_ABCD.irq_enable = 2 from rfl,
    show group_ABCD.irq_sense + 0 = 3 from rfl, show group_ABCD.irq_sense + 1 = 4 from rfl,
    show group_ABCD.irq_sense + 2 = 5 from rfl, h1, h2, h3, h4, h5, and_self]

theorem nr_gpios_irq_tail (s : AspeedGPIOState) (g : aspeed_gpio_group) (n : Nat) (level : Int) :
    (irq_tail s g n level).nr_gpios = s.nr_gpios := by
  simp only [irq_tail, apply_ite AspeedGPIOState.nr_gpios, qemu_irq_raise, wr, ite_self]

theorem EFGH_input_not_enabled (s : AspeedGPIOState) (n : Nat)
    (hin : aspeed_gpio_is_input s group_EFGH n = true)
    (hen : aspeed_gpio_irq_enabled s group_EFGH n = true) : False := by
  unfold aspeed_gpio_is_input at hin
  unfold aspeed_gpio_irq_enabled at hen
  rw [show group_EFGH.dir = 0 from rfl] at hin
  rw [show group_EFGH.irq_enable = 0 from rfl] at hen
  rw [hen] at hin
  cases hin

theorem pin_bit_irq_tail_data (s : AspeedGPIOState) (n : Nat) (level : Int) :
    pin_bit (irq_tail s group_ABCD n level) group_ABCD.data n = decide (level ≠ 0) := by
  rw [pin_bit_eq, group_ABCD_fields.1, irq_tail_group0]
  split
  · rw [rd_raise, rd_wr, if_neg (by decide), rd_wr, if_pos rfl, data_after_mod,
      testBit_data_after _ _ _ _ (rd_lt _ _), if_pos rfl]
  · rw [rd_wr, if_pos rfl, data_after_mod, testBit_data_after _ _ _ _ (rd_lt _ _), if_pos rfl]

/-- Rising-edge and falling-edge sense exclude each other, and each excludes the
level senses and both-edges sense. -/
theorem sense_exclusive (s : AspeedGPIOState) (g : aspeed_gpio_group) (n : Nat) :
    ¬ (aspeed_gpio_irq_rising s g n = true ∧ aspeed_gpio_irq_falling s g n = true)
      ∧ ¬ (aspeed_gpio_irq_high s g n = true ∧ aspeed_gpio_irq_low s g n = true) := by
  unfold aspeed_gpio_irq_low aspeed_gpio_irq_high aspeed_gpio_irq_rising aspeed_gpio_irq_falling
  cases (rd s (g.irq_sense + 2) &&& GROUP_BIT n != 0) <;>
    cases (rd s (g.irq_sense + 1) &&& GROUP_BIT n != 0) <;>
    cases (rd s (g.irq_sense + 0) &&& GROUP_BIT n != 0) <;> decide

theorem irq_tail_quiet_obs (s : AspeedGPIOState) (n : Nat) (level : Int)
    (hc : ¬ (aspeed_gpio_irq_enabled s group_ABCD n = true
      ∧ pin_fire s group_ABCD n level = true)) :
    rd (irq_tail s group_ABCD n level) group_ABCD.irq_status = rd s group_ABCD.irq_status
      ∧ (irq_tail s group_ABCD n level).irq = s.irq
      ∧ (irq_tail s group_ABCD n level).irq_raises = s.irq_raises := by
  rw [irq_tail_quiet s n level hc]
  refine ⟨?_, rfl, rfl⟩
  rw [group_ABCD_fields.2.2.2.2, rd_wr, if_neg (by decide)]

/-- The qualification rule at a pin, by the three sense bits of the pin. -/
theorem pin_fire_cases (s : AspeedGPIOState) (g : aspeed_gpio_group) (n : Nat) (level : Int) :
    (aspeed_gpio_irq_both s g n = true →
        pin_fire s g n level = (pin_bit s g.data n != decide (level ≠ 0)))
      ∧ (aspeed_gpio_irq_high s g n = true → pin_fire s g n level = decide (level ≠ 0))
      ∧ (aspeed_gpio_irq_low s g n = true → pin_fire s g n level = decide (level = 0)) := by
  unfold pin_fire spec_fire aspeed_gpio_irq_low aspeed_gpio_irq_high aspeed_gpio_irq_rising
    aspeed_gpio_irq_falling aspeed_gpio_irq_both
  by_cases hl : level = 0 <;>
  cases (rd s (g.irq_sense + 2) &&& GROUP_BIT n != 0) <;>
    cases (rd s (g.irq_sense + 1) &&& GROUP_BIT n != 0) <;>
    cases (rd s (g.irq_sense + 0) &&& GROUP_BIT n != 0) <;>
    cases pin_bit s g.data n <;> simp [hl]

/-- A pin number above `nr_gpios` is rejected: one guest error is reported and nothing
else changes. -/
theorem aspeed_gpio_irq_reject (s : AspeedGPIOState) (n : Nat) (level : Int)
    (h : s.nr_gpios < n) : aspeed_gpio_irq s n level = some (qemu_log_guest_error s) := by
  unfold aspeed_gpio_irq
  rw [if_pos h]

/-! ## Interrupt qualification and the data bit (C1, C2) -/

/-- C1. An accepted call `aspeed_gpio_irq s n level` on an in-range input pin `n` of
group 0 returns a state `s'`, and with `old` the data bit of the pin before the call and
`new` the level: the bit of the pin in `irq_status` is set and the interrupt line is
raised (driven high, one more call of `qemu_irq_raise`) if and only if the `irq_enable`
bit of the pin is set and the qualification rule `spec_fire` holds of the five sense
conditions of the source, `old` and `new`; when they do not both hold, the `irq_status`
word is the one before the call and the line is not raised. Here `g` is the entry of
`gpio_groups` for the group of the pin. -/
theorem set_pin_level_fires_iff (s : AspeedGPIOState) (n : Nat) (level : Int)
    (g : aspeed_gpio_group) (hn : n < s.nr_gpios) (hg : gpio_groups[TO_GROUP n]? = some g)
    (h0 : TO_GROUP n = 0) (hin : aspeed_gpio_is_input s g n = true) :
    ∃ s', aspeed_gpio_irq s n level = some s' ∧
      ((pin_bit s' g.irq_status n = true ∧ s'.irq = true ∧ s'.irq_raises = s.irq_raises + 1)
        ↔ (aspeed_gpio_irq_enabled s g n = true ∧
            spec_fire (aspeed_gpio_irq_low s g n) (aspeed_gpio_irq_high s g n)
              (aspeed_gpio_irq_rising s g n) (aspeed_gpio_irq_falling s g n)
              (aspeed_gpio_irq_both s g n) (pin_bit s g.data n) (decide (level ≠ 0)) = true))
      ∧ (¬ (aspeed_gpio_irq_enabled s g n = true ∧
            spec_fire (aspeed_gpio_irq_low s g n) (aspeed_gpio_irq_high s g n)
              (aspeed_gpio_irq_rising s g n) (aspeed_gpio_irq_falling s g n)
              (aspeed_gpio_irq_both s g n) (pin_bit s g.data n) (decide (level ≠ 0)) = true)
          → rd s' g.irq_status = rd s g.irq_status ∧ s'.irq = s.irq
            ∧ s'.irq_raises = s.irq_raises) := by
  rcases group_cases hg with ⟨_, rfl⟩ | ⟨h32, _, _⟩
  swap
  · unfold TO_GROUP at h0; omega
  refine ⟨_, irq_tail_of_input s n level _ hn.le hg hin, ?_⟩
  rw [irq_tail_group0]
  change (_ ↔ (aspeed_gpio_irq_enabled s group_ABCD n = true ∧ pin_fire s group_ABCD n level = true))
    ∧ (¬ (aspeed_gpio_irq_enabled s group_ABCD n = true ∧ pin_fire s group_ABCD n level = true) → _)
  obtain ⟨-, -, -, -, hs⟩ := group_ABCD_fields
  rw [hs]
  by_cases hc : aspeed_gpio_irq_enabled s group_ABCD n = true ∧ pin_fire s group_ABCD n level = true
  · have hc' : (aspeed_gpio_irq_enabled s group_ABCD n && pin_fire s group_ABCD n level) = true := by
      simpa using hc
    rw [if_pos hc']
    refine ⟨⟨fun _ => hc, fun _ => ⟨?_, rfl, rfl⟩⟩, fun h => absurd hc h⟩
    rw [pin_bit_eq, rd_raise, rd_wr, if_pos rfl]
    exact testBit_status_update _ _
  · have hc' : ¬ (aspeed_gpio_irq_enabled s group_ABCD n && pin_fire s group_ABCD n level) = true := by
      simpa using hc
    rw [if_neg hc']
    refine ⟨⟨fun h => ?_, fun h => absurd h hc⟩, fun _ => ⟨?_, rfl, rfl⟩⟩
    · exfalso
      have : (wr s 0 (data_after (rd s 0) n level)).irq_raises = s.irq_raises := rfl
      omega
    · rw [rd_wr, if_neg (by decide)]

theorem set_pin_level_fires_iff_witness :
    ∃ s', aspeed_gpio_irq risingPin3 3 1 = some s' ∧ pin_bit s' group_ABCD.irq_status 3 = true
      ∧ s'.irq = true ∧ s'.irq_raises = risingPin3.irq_raises + 1 := by
  obtain ⟨s', h, hiff, -⟩ := set_pin_level_fires_iff risingPin3 3 1 group_ABCD
    (by decide) (by decide) (by decide) (by decide)
  exact ⟨s', h, hiff.mpr (by decide)⟩

/-- C2. For an in-range input pin `n` and every level, the call returns a state in
which the bit of the pin in the data word of its group equals the level (set when
`level` is not zero, clear when it is zero), and every other bit of that data word is
the one before the call. Here `g` is the entry of `gpio_groups` for the group of the
pin; the statement covers both entries of the table. -/
theorem set_pin_level_data_bit (s : AspeedGPIOState) (n : Nat) (level : Int)
    (g : aspeed_gpio_group) (hn : n < s.nr_gpios) (hg : gpio_groups[TO_GROUP n]? = some g)
    (hin : aspeed_gpio_is_input s g n = true) :
    ∃ s', aspeed_gpio_irq s n level = some s' ∧
      pin_bit s' g.data n = decide (level ≠ 0) ∧
      ∀ i, i ≠ n % 32 → (rd s' g.data).testBit i = (rd s g.data).testBit i := by
  refine ⟨_, irq_tail_of_input s n level g hn.le hg hin, ?_, ?_⟩
  · rw [pin_bit_eq, rd_irq_tail_data s n level g hg, testBit_data_after _ _ _ _ (rd_lt _ _),
      if_pos rfl]
  · intro i hi
    rw [rd_irq_tail_data s n level g hg, testBit_data_after _ _ _ _ (rd_lt _ _), if_neg hi]

theorem set_pin_level_data_bit_witness :
    ∃ s', aspeed_gpio_irq (zeroState 64) 40 1 = some s' ∧
      pin_bit s' group_EFGH.data 40 = true ∧
      ∀ i, i ≠ 40 % 32 → (rd s' group_EFGH.data).testBit i
        = (rd (zeroState 64) group_EFGH.data).testBit i :=
  set_pin_level_data_bit (zeroState 64) 40 1 group_EFGH (by decide) (by decide) (by decide)

/-! ## Rejected calls (C3, C4), pin addressing (C5, C6), sense conditions (C7) -/

/-- C3, the code at the failing input. The range test of the handler is
`n > s->nr_gpios`, so the pin number `n = nr_gpios` is not rejected: on the controller
of 8 pins with every word zero, the call for pin 8 with level 1 reports no guest error
and changes the data word of group A/B/C/D from 0 to 256 (bit 8). -/
theorem pin_nr_gpios_not_rejected :
    (zeroState 8).nr_gpios ≤ 8 ∧ rd (zeroState 8) group_ABCD.data = 0 ∧
      (aspeed_gpio_irq (zeroState 8) 8 1).map
          (fun s' => (rd s' group_ABCD.data, s'.guest_errors)) = some (256, 0) := by
  decide

/-- C4, the code at the failing input. The direction test of the handler reports a
guest error and goes on (the output-only test above it reports and returns): on the
controller of 32 pins whose pin 3 is an output, the call for pin 3 with level 1 reports
one guest error and changes the data word from 0 to 8 (bit 3). -/
theorem output_pin_level_applied :
    3 < outputPin3.nr_gpios ∧ aspeed_gpio_is_input outputPin3 group_ABCD 3 = false ∧
      rd outputPin3 group_ABCD.data = 0 ∧
      (aspeed_gpio_irq outputPin3 3 1).map
          (fun s' => (rd s' group_ABCD.data, s'.guest_errors)) = some (8, 1) := by
  decide

/-- C5. For every pin number `n`: `TO_GROUP n = n / 32`, `TO_BANK n = (n / 8) % 4`,
`TO_INDEX n = n % 8`, and `GROUP_BIT n` is `1 << (TO_INDEX n + 8 * TO_BANK n)`, which
is `1 << (n % 32)`, a value of 32 bits. -/
theorem pin_addressing (n : Nat) :
    TO_GROUP n = n / 32 ∧ TO_BANK n = (n / 8) % 4 ∧ TO_INDEX n = n % 8
      ∧ GROUP_BIT n = 1 <<< (TO_INDEX n + 8 * TO_BANK n)
      ∧ GROUP_BIT n = 1 <<< (n % 32) ∧ GROUP_BIT n < 2 ^ 32 := by
  refine ⟨rfl, rfl, rfl, ?_, ?_, ?_⟩
  · rw [pin_position, Nat.one_shiftLeft]
    exact GROUP_BIT_eq_two_pow n
  · rw [Nat.one_shiftLeft]
    exact GROUP_BIT_eq_two_pow n
  · exact GROUP_BIT_lt n

theorem GROUP_BIT_injective_mod (n m : Nat) (h : GROUP_BIT m = GROUP_BIT n) : m % 32 = n % 32 := by
  have h1 := testBit_GROUP_BIT m (m % 32)
  rw [h, testBit_GROUP_BIT] at h1
  have h2 : n % 32 = m % 32 := by simpa using h1.symm
  exact h2.symm

/-- C6. The pin addressing is a bijection. For every pin number `n`, `GROUP_BIT n` has
exactly one bit set, at position `TO_INDEX n + 8 * TO_BANK n`; the bank is below 4 and
the index below 8; `n = 32 * TO_GROUP n + 8 * TO_BANK n + TO_INDEX n`; two pins of the
same group with the same mask are the same pin; and every triple of a group, a bank
below 4 and an index below 8 is the address of the pin `32 * group + 8 * bank + index`. -/
theorem pin_addressing_bijective (n : Nat) :
    (∃! i, (GROUP_BIT n).testBit i = true)
      ∧ (∀ i, (GROUP_BIT n).testBit i = true ↔ i = TO_INDEX n + 8 * TO_BANK n)
      ∧ TO_BANK n < 4 ∧ TO_INDEX n < 8
      ∧ n = 32 * TO_GROUP n + 8 * TO_BANK n + TO_INDEX n
      ∧ (∀ m, TO_GROUP m = TO_GROUP n → GROUP_BIT m = GROUP_BIT n → m = n)
      ∧ (∀ grp bank index, bank < 4 → index < 8 →
          TO_GROUP (32 * grp + 8 * bank + index) = grp
            ∧ TO_BANK (32 * grp + 8 * bank + index) = bank
            ∧ TO_INDEX (32 * grp + 8 * bank + index) = index) := by
  refine ⟨⟨n % 32, ?_, ?_⟩, ?_, ?_, ?_, ?_, ?_, ?_⟩
  · simp [testBit_GROUP_BIT]
  · intro i hi
    rw [testBit_GROUP_BIT] at hi
    simpa using (of_decide_eq_true hi).symm
  · intro i
    rw [testBit_GROUP_BIT, pin_position]
    simp [eq_comm]
  · unfold TO_BANK; omega
  · unfold TO_INDEX; omega
  · unfold TO_GROUP TO_BANK TO_INDEX; omega
  · intro m hg hb
    have hmod := GROUP_BIT_injective_mod n m hb
    unfold TO_GROUP at hg
    omega
  · intro grp bank index hb hi
    unfold TO_GROUP TO_BANK TO_INDEX
    omega

/-- C7. For every register state, every group layout and every pin, exactly one of the
five sense conditions `aspeed_gpio_irq_low`, `aspeed_gpio_irq_high`,
`aspeed_gpio_irq_rising`, `aspeed_gpio_irq_falling` and `aspeed_gpio_irq_both` holds:
one of the five is true, no two of them are true together, each of the first four is
the conjunction of the three sense bits `dual`, `level`, `high` the specification
gives, and both-edges holds exactly when the `dual` bit is set. -/
theorem sense_conditions_exactly_one (s : AspeedGPIOState) (g : aspeed_gpio_group) (n : Nat) :
    [aspeed_gpio_irq_low s g n, aspeed_gpio_irq_high s g n, aspeed_gpio_irq_rising s g n,
        aspeed_gpio_irq_falling s g n, aspeed_gpio_irq_both s g n].count true = 1
      ∧ List.Pairwise (fun a b => ¬ (a = true ∧ b = true))
          [aspeed_gpio_irq_low s g n, aspeed_gpio_irq_high s g n, aspeed_gpio_irq_rising s g n,
            aspeed_gpio_irq_falling s g n, aspeed_gpio_irq_both s g n]
      ∧ (aspeed_gpio_irq_both s g n = true ↔ pin_bit s (g.irq_sense + 2) n = true)
      ∧ (aspeed_gpio_irq_low s g n = true ↔
          (pin_bit s (g.irq_sense + 2) n = false ∧ pin_bit s (g.irq_sense + 1) n = true
            ∧ pin_bit s (g.irq_sense + 0) n = false))
      ∧ (aspeed_gpio_irq_high s g n = true ↔
          (pin_bit s (g.irq_sense + 2) n = false ∧ pin_bit s (g.irq_sense + 1) n = true
            ∧ pin_bit s (g.irq_sense + 0) n = true))
      ∧ (aspeed_gpio_irq_rising s g n = true ↔
          (pin_bit s (g.irq_sense + 2) n = false ∧ pin_bit s (g.irq_sense + 1) n = false
            ∧ pin_bit s (g.irq_sense + 0) n = true))
      ∧ (aspeed_gpio_irq_falling s g n = true ↔
          (pin_bit s (g.irq_sense + 2) n = false ∧ pin_bit s (g.irq_sense + 1) n = false
            ∧ pin_bit s (g.irq_sense + 0) n = false)) := by
  unfold aspeed_gpio_irq_low aspeed_gpio_irq_high aspeed_gpio_irq_rising aspeed_gpio_irq_falling
    aspeed_gpio_irq_both pin_bit
  cases (rd s (g.irq_sense + 2) &&& GROUP_BIT n != 0) <;>
    cases (rd s (g.irq_sense + 1) &&& GROUP_BIT n != 0) <;>
    cases (rd s (g.irq_sense + 0) &&& GROUP_BIT n != 0) <;> decide

/-! ## Edge and level sense (C8, C9, C10) -/

/-- An edge-sensed pin of group A/B/C/D that already carries the level of the call
does not fire. -/
theorem pin_fire_edge_repeat (s : AspeedGPIOState) (n : Nat) (level : Int)
    (hedge : aspeed_gpio_irq_rising s group_ABCD n = true
      ∨ aspeed_gpio_irq_falling s group_ABCD n = true)
    (hb : pin_bit s group_ABCD.data n = decide (level ≠ 0))
    (hdir : aspeed_gpio_irq_rising s group_ABCD n = true → level ≠ 0)
    (hdir' : aspeed_gpio_irq_falling s group_ABCD n = true → level = 0) :
    pin_fire s group_ABCD n level = false := by
  unfold pin_fire spec_fire
  rw [hb]
  unfold aspeed_gpio_irq_low aspeed_gpio_irq_high aspeed_gpio_irq_rising aspeed_gpio_irq_falling
    aspeed_gpio_irq_both at *
  revert hedge hdir hdir'
  by_cases hl : level = 0 <;>
  cases (rd s (group_ABCD.irq_sense + 2) &&& GROUP_BIT n != 0) <;>
    cases (rd s (group_ABCD.irq_sense + 1) &&& GROUP_BIT n != 0) <;>
    cases (rd s (group_ABCD.irq_sense + 0) &&& GROUP_BIT n != 0) <;> simp [hl]

/-- Two calls in a row with the same kind of level on an edge-sensed input pin of
group A/B/C/D: the second one leaves the state as the first one left it. -/
theorem edge_repeat_ABCD (s : AspeedGPIOState) (n : Nat) (l1 l2 : Int)
    (hn : n ≤ s.nr_gpios) (hg : gpio_groups[TO_GROUP n]? = some group_ABCD)
    (hin : aspeed_gpio_is_input s group_ABCD n = true)
    (hl : l1 ≠ 0 ↔ l2 ≠ 0)
    (hedge : aspeed_gpio_irq_rising s group_ABCD n = true
      ∨ aspeed_gpio_irq_falling s group_ABCD n = true)
    (hdir : aspeed_gpio_irq_rising s group_ABCD n = true → l2 ≠ 0)
    (hdir' : aspeed_gpio_irq_falling s group_ABCD n = true → l2 = 0) :
    ∃ s1, aspeed_gpio_irq s n l1 = some s1 ∧ aspeed_gpio_irq s1 n l2 = some s1 := by
  refine ⟨_, irq_tail_of_input s n l1 _ hn hg hin, ?_⟩
  obtain ⟨cin, -, -, -, cr, cf, -⟩ := irq_tail_config s n n l1
  have hn1 : n ≤ (irq_tail s group_ABCD n l1).nr_gpios := by rw [nr_gpios_irq_tail]; exact hn
  rw [irq_tail_of_input _ n l2 _ hn1 hg (by rw [cin]; exact hin)]
  congr 1
  have hb : pin_bit (irq_tail s group_ABCD n l1) group_ABCD.data n = decide (l2 ≠ 0) := by
    rw [pin_bit_irq_tail_data]
    exact decide_eq_decide.mpr hl
  apply irq_tail_noop _ n l2 hb
  intro hc
  have := pin_fire_edge_repeat (irq_tail s group_ABCD n l1) n l2 (by rw [cr, cf]; exact hedge) hb
    (by rw [cr]; exact hdir) (by rw [cf]; exact hdir')
  rw [this] at hc
  exact Bool.noConfusion hc.2

/-- C8. For an in-range input pin that is enabled: under rising-edge sense, a call
with a non-zero level followed by a second call with a non-zero level, and under
falling-edge sense two calls in a row with level zero, both return, and the second call
does not raise the interrupt line and leaves the whole register file (data and
`irq_status` included) as the first call left it. Here `g` is the entry of
`gpio_groups` for the group of the pin; in group E/F/G/H the direction word and the
enable word are the same word, so no pin of it is both an input and enabled. -/
theorem edge_sense_no_refire (s : AspeedGPIOState) (n : Nat) (g : aspeed_gpio_group)
    (hn : n < s.nr_gpios) (hg : gpio_groups[TO_GROUP n]? = some g)
    (hin : aspeed_gpio_is_input s g n = true) (hen : aspeed_gpio_irq_enabled s g n = true) :
    (aspeed_gpio_irq_rising s g n = true → ∀ l1 l2 : Int, l1 ≠ 0 → l2 ≠ 0 →
        ∃ s1 s2, aspeed_gpio_irq s n l1 = some s1 ∧ aspeed_gpio_irq s1 n l2 = some s2
          ∧ s2.regs = s1.regs ∧ s2.irq_raises = s1.irq_raises ∧ s2.irq = s1.irq)
    ∧ (aspeed_gpio_irq_falling s g n = true →
        ∃ s1 s2, aspeed_gpio_irq s n 0 = some s1 ∧ aspeed_gpio_irq s1 n 0 = some s2
          ∧ s2.regs = s1.regs ∧ s2.irq_raises = s1.irq_raises ∧ s2.irq = s1.irq) := by
  rcases group_cases hg with ⟨_, rfl⟩ | ⟨_, _, rfl⟩
  swap
  · exact (EFGH_input_not_enabled s n hin hen).elim
  constructor
  · intro hr l1 l2 h1 h2
    have hnf : ¬ aspeed_gpio_irq_falling s group_ABCD n = true := by
      have h := (sense_exclusive s group_ABCD n).1
      intro hf; exact h ⟨hr, hf⟩
    obtain ⟨s1, e1, e2⟩ := edge_repeat_ABCD s n l1 l2 hn.le hg hin (by simp [h1, h2])
      (Or.inl hr) (fun _ => h2) (fun hf => absurd hf hnf)
    exact ⟨s1, s1, e1, e2, rfl, rfl, rfl⟩
  · intro hf
    have hnr : ¬ aspeed_gpio_irq_rising s group_ABCD n = true := by
      have h := (sense_exclusive s group_ABCD n).1
      intro hr; exact h ⟨hr, hf⟩
    obtain ⟨s1, e1, e2⟩ := edge_repeat_ABCD s n 0 0 hn.le hg hin (by simp)
      (Or.inr hf) (fun hr => absurd hr hnr) (fun _ => rfl)
    exact ⟨s1, s1, e1, e2, rfl, rfl, rfl⟩

theorem edge_sense_no_refire_witness :
    (∃ s1 s2, aspeed_gpio_irq risingPin3 3 1 = some s1 ∧ aspeed_gpio_irq s1 3 1 = some s2
        ∧ s2.regs = s1.regs ∧ s2.irq_raises = s1.irq_raises ∧ s2.irq = s1.irq)
    ∧ (∃ s1 s2, aspeed_gpio_irq fallingPin3 3 0 = some s1 ∧ aspeed_gpio_irq s1 3 0 = some s2
        ∧ s2.regs = s1.regs ∧ s2.irq_raises = s1.irq_raises ∧ s2.irq = s1.irq) :=
  ⟨(edge_sense_no_refire risingPin3 3 group_ABCD (by decide) (by decide) (by decide)
      (by decide)).1 (by decide) 1 1 (by decide) (by decide),
   (edge_sense_no_refire fallingPin3 3 group_ABCD (by decide) (by decide) (by decide)
      (by decide)).2 (by decide)⟩

/-- C9. For an in-range input pin with its `irq_enable` bit and its `dual` (both-edges)
sense bit set, the call returns a state `s'`; when the level differs from the data bit
of the pin (a toggle), the `irq_status` bit of the pin is set in `s'` and the line is
raised once; when the level equals the data bit, the `irq_status` word is unchanged
and the line is not raised. Here `g` is the entry of `gpio_groups` for the group of the
pin; no pin of group E/F/G/H is both an input and enabled. -/
theorem both_edges_fire_on_toggle (s : AspeedGPIOState) (n : Nat) (level : Int)
    (g : aspeed_gpio_group) (hn : n < s.nr_gpios) (hg : gpio_groups[TO_GROUP n]? = some g)
    (hin : aspeed_gpio_is_input s g n = true) (hen : aspeed_gpio_irq_enabled s g n = true)
    (hboth : aspeed_gpio_irq_both s g n = true) :
    ∃ s', aspeed_gpio_irq s n level = some s' ∧
      (decide (level ≠ 0) ≠ pin_bit s g.data n →
        pin_bit s' g.irq_status n = true ∧ s'.irq = true
          ∧ s'.irq_raises = s.irq_raises + 1)
      ∧ (decide (level ≠ 0) = pin_bit s g.data n →
        rd s' g.irq_status = rd s g.irq_status ∧ s'.irq = s.irq
          ∧ s'.irq_raises = s.irq_raises) := by
  rcases group_cases hg with ⟨_, rfl⟩ | ⟨_, _, rfl⟩
  swap
  · exact (EFGH_input_not_enabled s n hin hen).elim
  refine ⟨_, irq_tail_of_input s n level _ hn.le hg hin, ?_, ?_⟩
  · intro hne
    apply irq_tail_fire s n level
    refine ⟨hen, ?_⟩
    rw [(pin_fire_cases s group_ABCD n level).1 hboth]
    revert hne
    cases pin_bit s group_ABCD.data n <;> cases decide (level ≠ 0) <;> simp
  · intro heq
    apply irq_tail_quiet_obs s n level
    rintro ⟨-, hf⟩
    rw [(pin_fire_cases s group_ABCD n level).1 hboth, heq] at hf
    simp at hf

theorem both_edges_fire_on_toggle_witness :
    ∃ s', aspeed_gpio_irq bothPin3 3 1 = some s' ∧
      pin_bit s' group_ABCD.irq_status 3 = true ∧ s'.irq = true
        ∧ s'.irq_raises = bothPin3.irq_raises + 1 := by
  obtain ⟨s', h, hfire, -⟩ := both_edges_fire_on_toggle bothPin3 3 1 group_ABCD
    (by decide) (by decide) (by decide) (by decide) (by decide)
  exact ⟨s', h, hfire (by decide)⟩

/-- C10. Level sense is not edge-triggered. For an in-range enabled input pin: under
high-level sense every call with a non-zero level sets the `irq_status` bit of the pin
and raises the line, whatever the data bit of the pin was, and a call with level zero
leaves `irq_status` unchanged and does not raise the line; under low-level sense the
same holds with the two kinds of level exchanged. Here `g` is the entry of
`gpio_groups` for the group of the pin; no pin of group E/F/G/H is both an input and
enabled. -/
theorem level_sense_fires_on_level (s : AspeedGPIOState) (n : Nat) (g : aspeed_gpio_group)
    (hn : n < s.nr_gpios) (hg : gpio_groups[TO_GROUP n]? = some g)
    (hin : aspeed_gpio_is_input s g n = true) (hen : aspeed_gpio_irq_enabled s g n = true) :
    (aspeed_gpio_irq_high s g n = true →
      (∀ l : Int, l ≠ 0 → ∃ s', aspeed_gpio_irq s n l = some s' ∧
          pin_bit s' g.irq_status n = true ∧ s'.irq = true
            ∧ s'.irq_raises = s.irq_raises + 1)
        ∧ (∃ s', aspeed_gpio_irq s n 0 = some s' ∧
          rd s' g.irq_status = rd s g.irq_status ∧ s'.irq = s.irq
            ∧ s'.irq_raises = s.irq_raises))
    ∧ (aspeed_gpio_irq_low s g n = true →
      (∃ s', aspeed_gpio_irq s n 0 = some s' ∧
          pin_bit s' g.irq_status n = true ∧ s'.irq = true
            ∧ s'.irq_raises = s.irq_raises + 1)
        ∧ (∀ l : Int, l ≠ 0 → ∃ s', aspeed_gpio_irq s n l = some s' ∧
          rd s' g.irq_status = rd s g.irq_status ∧ s'.irq = s.irq
            ∧ s'.irq_raises = s.irq_raises)) := by
  rcases group_cases hg with ⟨_, rfl⟩ | ⟨_, _, rfl⟩
  swap
  · exact (EFGH_input_not_enabled s n hin hen).elim
  have acc := fun l => irq_tail_of_input s n l _ hn.le hg hin
  refine ⟨fun hh => ⟨fun l hl => ⟨_, acc l, ?_⟩, ⟨_, acc 0, ?_⟩⟩,
    fun hlow => ⟨⟨_, acc 0, ?_⟩, fun l hl => ⟨_, acc l, ?_⟩⟩⟩
  · apply irq_tail_fire s n l
    exact ⟨hen, by rw [(pin_fire_cases s group_ABCD n l).2.1 hh]; simpa using hl⟩
  · apply irq_tail_quiet_obs s n 0
    rintro ⟨-, hf⟩
    rw [(pin_fire_cases s group_ABCD n 0).2.1 hh] at hf
    simp at hf
  · apply irq_tail_fire s n 0
    exact ⟨hen, by rw [(pin_fire_cases s group_ABCD n 0).2.2 hlow]; simp⟩
  · apply irq_tail_quiet_obs s n l
    rintro ⟨-, hf⟩
    rw [(pin_fire_cases s group_ABCD n l).2.2 hlow] at hf
    simp [hl] at hf

theorem level_sense_fires_on_level_witness :
    (∀ l : Int, l ≠ 0 → ∃ s', aspeed_gpio_irq highPin3 3 l = some s' ∧
        pin_bit s' group_ABCD.irq_status 3 = true ∧ s'.irq = true
          ∧ s'.irq_raises = highPin3.irq_raises + 1)
      ∧ (∃ s', aspeed_gpio_irq highPin3 3 0 = some s' ∧
        rd s' group_ABCD.irq_status = rd highPin3 group_ABCD.irq_status ∧ s'.irq = highPin3.irq
          ∧ s'.irq_raises = highPin3.irq_raises) :=
  (level_sense_fires_on_level highPin3 3 group_ABCD (by decide) (by decide) (by decide)
    (by decide)).1 (by decide)

/-! ## The status word of group A/B/C/D and the interrupt line -/

theorem rd_direction_test (s : AspeedGPIOState) (c : Bool) (j : Nat) :
    rd (if c = true then qemu_log_guest_error s else s) j = rd s j := by
  cases c <;> rfl

theorem irq_direction_test (s : AspeedGPIOState) (c : Bool) :
    (if c = true then qemu_log_guest_error s else s).irq = s.irq := by
  cases c <;> rfl

theorem enabled_direction_test (s : AspeedGPIOState) (c : Bool) (g : aspeed_gpio_group)
    (n : Nat) :
    aspeed_gpio_irq_enabled (if c = true then qemu_log_guest_error s else s) g n
      = aspeed_gpio_irq_enabled s g n := by
  cases c <;> rfl

theorem aspeed_gpio_irq_no_group (s : AspeedGPIOState) (n : Nat) (level : Int)
    (hn : n ≤ s.nr_gpios) (hg : gpio_groups[TO_GROUP n]? = none) :
    aspeed_gpio_irq s n level = none := by
  have hn' : ¬ n > s.nr_gpios := by omega
  have ho : ¬ aspeed_gpio_output_only s n = true := by simp [aspeed_gpio_output_only]
  unfold aspeed_gpio_irq
  rw [if_neg hn', if_neg ho, hg]

theorem testBit_index_lt (x i : Nat) (hx : x < UINT32_SIZE) (h : x.testBit i = true) :
    i < 32 := by
  by_contra hc
  have h32 : UINT32_SIZE = 2 ^ 32 := by decide
  have : x.testBit i = false :=
    Nat.testBit_lt_two_pow (lt_of_lt_of_le (h32 ▸ hx) (Nat.pow_le_pow_right (by decide)
      (by omega)))
  rw [this] at h
  cases h

theorem irq_tail_status_kept (s1 : AspeedGPIOState) (g : aspeed_gpio_group) (n : Nat)
    (level : Int) (hg : g = group_ABCD ∨ g = group_EFGH) :
    (∀ i, (rd s1 6).testBit i = true → (rd (irq_tail s1 g n level) 6).testBit i = true)
      ∧ (s1.irq = true → (irq_tail s1 g n level).irq = true) := by
  rcases hg with rfl | rfl
  · rw [irq_tail_group0]
    split
    · refine ⟨fun i hi => ?_, fun _ => rfl⟩
      have hlt := testBit_index_lt _ i (rd_lt _ _) hi
      have h32 : UINT32_SIZE = 2 ^ 32 := by decide
      rw [rd_raise, rd_wr, if_pos rfl, h32, Nat.testBit_mod_two_pow, Nat.testBit_or, hi]
      simp [hlt]
    · refine ⟨fun i hi => ?_, fun hi => hi⟩
      rw [rd_wr, if_neg (by decide)]
      exact hi
  · rw [irq_tail_group1]
    split
    · refine ⟨fun i hi => ?_, fun _ => rfl⟩
      rw [rd_raise, rd_wr, if_neg (by decide)]
      exact hi
    · refine ⟨fun i hi => ?_, fun hi => hi⟩
      rw [rd_wr, if_neg (by decide)]
      exact hi

/-- The handler never clears a bit of the `irq_status` word of group A/B/C/D and never
lowers the interrupt line, whatever the pin and the level. -/
theorem irq_status_ABCD_kept (s s' : AspeedGPIOState) (n : Nat) (level : Int)
    (h : aspeed_gpio_irq s n level = some s') :
    (∀ i, (rd s group_ABCD.irq_status).testBit i = true
        → (rd s' group_ABCD.irq_status).testBit i = true)
      ∧ (s.irq = true → s'.irq = true) := by
  rw [group_ABCD_fields.2.2.2.2]
  by_cases hn : n ≤ s.nr_gpios
  swap
  · rw [aspeed_gpio_irq_reject s n level (by omega)] at h
    cases h
    exact ⟨fun i hi => hi, fun hi => hi⟩
  cases hgl : gpio_groups[TO_GROUP n]? with
  | none =>
    rw [aspeed_gpio_irq_no_group s n level hn hgl] at h
    cases h
  | some g =>
    rw [aspeed_gpio_irq_accept s n level g hn hgl] at h
    cases h
    have hg : g = group_ABCD ∨ g = group_EFGH := by
      rcases group_cases hgl with ⟨_, h⟩ | ⟨_, _, h⟩
      · exact Or.inl h
      · exact Or.inr h
    obtain ⟨k1, k2⟩ := irq_tail_status_kept
      (if (!aspeed_gpio_is_input s g n) = true then qemu_log_guest_error s else s) g n level hg
    simp only [rd_direction_test] at k1
    rw [irq_direction_test] at k2
    exact ⟨k1, k2⟩

theorem and_ne_zero_of_testBit (x y k : Nat) (hx : x.testBit k = true)
    (hy : y.testBit k = true) : (x &&& y != 0) = true := by
  have : (x &&& y).testBit k = true := by rw [Nat.testBit_and, hx, hy]; rfl
  have hne : x &&& y ≠ 0 := by
    intro h0
    rw [h0, Nat.zero_testBit] at this
    cases this
  simpa using hne

theorem irq_tail_line_invariant (s1 : AspeedGPIOState) (n : Nat) (level : Int)
    (hinv : line_invariant_ABCD s1 = true) :
    line_invariant_ABCD (irq_tail s1 group_ABCD n level) = true := by
  unfold line_invariant_ABCD at hinv ⊢
  rw [group_ABCD_fields.2.2.2.2, group_ABCD_fields.2.2.1] at hinv ⊢
  rw [rd_irq_tail_config _ n level 2 (by decide) (by decide)]
  rw [irq_tail_group0]
  split
  · next hc =>
    rw [Bool.and_eq_true] at hc
    have hen : (rd s1 2).testBit (n % 32) = true := by
      have := hc.1
      unfold aspeed_gpio_irq_enabled at this
      rw [and_GROUP_BIT_ne_zero] at this
      exact this
    have hst := testBit_status_update (rd s1 6) n
    rw [rd_raise, rd_wr, if_pos rfl, and_ne_zero_of_testBit _ _ _ hst hen]
    rfl
  · rw [rd_wr, if_neg (by decide)]
    exact hinv

/-- The invariant of the interrupt line read on group A/B/C/D alone is kept by every
call for a pin of that group. -/
theorem line_invariant_ABCD_kept (s : AspeedGPIOState) (n : Nat) (level : Int)
    (h0 : TO_GROUP n = 0) (hinv : line_invariant_ABCD s = true) :
    ∃ s', aspeed_gpio_irq s n level = some s' ∧ line_invariant_ABCD s' = true := by
  have hg : gpio_groups[TO_GROUP n]? = some group_ABCD := by rw [h0]; rfl
  by_cases hn : n ≤ s.nr_gpios
  swap
  · exact ⟨_, aspeed_gpio_irq_reject s n level (by omega), hinv⟩
  refine ⟨_, aspeed_gpio_irq_accept s n level _ hn hg, ?_⟩
  apply irq_tail_line_invariant
  cases (!aspeed_gpio_is_input s group_ABCD n) <;> exact hinv

/-! ## No auto-clear, the line invariant and the layout table (C11, C12, C13) -/

/-- C11, the code at the failing input. The entry of group E/F/G/H in `gpio_groups` is
empty, so the `irq_status` word of that group is word 0, the data word of both groups.
On the controller of 64 pins in which word 0 holds 8 (the pending bit of pin 35), the
call for pin 3 with level 0 is accepted without a guest error and leaves word 0 at 0:
the pending bit of pin 35 is cleared. The `irq_status` word of group A/B/C/D never
loses a bit and the line is never lowered (`irq_status_ABCD_kept`). -/
theorem pending_bit_cleared_by_pin_update :
    3 < pendingWord0.nr_gpios ∧ gpio_groups[TO_GROUP 35]? = some group_EFGH
      ∧ pin_bit pendingWord0 group_EFGH.irq_status 35 = true
      ∧ (aspeed_gpio_irq pendingWord0 3 0).map
          (fun s' => (pin_bit s' group_EFGH.irq_status 35, rd s' group_EFGH.irq_status,
            s'.guest_errors)) = some (false, 0, 0) := by
  decide

/-- C12, the code at the failing input. The entry of group E/F/G/H in `gpio_groups` is
empty, so its `irq_status` and `irq_enable` are both word 0, the data word. The
controller of 64 pins with every word zero satisfies the invariant of the line; after
the call for pin 3 with level 1 the line is still low while `irq_status & irq_enable`
of group E/F/G/H is 8, so the invariant no longer holds. Read on group A/B/C/D alone
the invariant is kept (`line_invariant_ABCD_kept`). -/
theorem line_invariant_broken_by_pin_update :
    3 < (zeroState 64).nr_gpios ∧ line_invariant (zeroState 64) = true
      ∧ (aspeed_gpio_irq (zeroState 64) 3 1).map
          (fun s' => (line_invariant s', s'.irq,
            rd s' group_EFGH.irq_status &&& rd s' group_EFGH.irq_enable,
            rd s' group_ABCD.irq_status &&& rd s' group_ABCD.irq_enable))
        = some (false, false, 8, 0) := by
  decide

/-- C13, the table at the failing entry. The nine word indexes of the entry of group
A/B/C/D are pairwise distinct; the entry of group E/F/G/H has an empty initialiser, so
its indexes are 0 except the sense words 1 and 2: they are not pairwise distinct, word
0 is also the data word of group A/B/C/D, and the distinct valid pins 3 and 35 share
the same word and bit for data, which for pin 35 is also its word and bit for
`irq_status`. -/
theorem second_group_entry_all_zero :
    gpio_groups[1]? = some group_EFGH
      ∧ (group_words group_ABCD).Nodup
      ∧ group_words group_EFGH = [0, 0, 0, 0, 1, 2, 0, 0, 0]
      ∧ ¬ (group_words group_EFGH).Nodup
      ∧ group_EFGH.data = group_ABCD.data
      ∧ (3 ≠ 35 ∧ gpio_groups[TO_GROUP 3]? = some group_ABCD
          ∧ gpio_groups[TO_GROUP 35]? = some group_EFGH
          ∧ (group_ABCD.data, GROUP_BIT 3) = (group_EFGH.data, GROUP_BIT 35)
          ∧ (group_EFGH.data, GROUP_BIT 35) = (group_EFGH.irq_status, GROUP_BIT 35)) := by
  decide

/-! ## Device construction (C19) and the frame of a pin update (C20) -/

/-- C19. For a silicon revision that `is_supported_silicon_rev` rejects,
`aspeed_scu_realize` reports the error to the caller and takes none of the construction
steps: no I/O region is initialised or exported, no pin-input handler is registered and
no interrupt line is exposed. For a supported revision it reports no error and takes
the four construction steps. The test of the revision is a parameter. -/
theorem realize_checks_silicon_rev (is_supported_silicon_rev : Nat → Bool)
    (ASPEED_GPIO_NR_GPIOS : Nat) (s : AspeedGPIOState) :
    (is_supported_silicon_rev s.silicon_rev = false →
        aspeed_scu_realize is_supported_silicon_rev ASPEED_GPIO_NR_GPIOS s
            = [RealizeStep.error_setg s.silicon_rev]
          ∧ (∀ size, RealizeStep.memory_region_init_io size
              ∉ aspeed_scu_realize is_supported_silicon_rev ASPEED_GPIO_NR_GPIOS s)
          ∧ RealizeStep.sysbus_init_mmio
              ∉ aspeed_scu_realize is_supported_silicon_rev ASPEED_GPIO_NR_GPIOS s
          ∧ (∀ k, RealizeStep.qdev_init_gpio_in k
              ∉ aspeed_scu_realize is_supported_silicon_rev ASPEED_GPIO_NR_GPIOS s)
          ∧ RealizeStep.sysbus_init_irq
              ∉ aspeed_scu_realize is_supported_silicon_rev ASPEED_GPIO_NR_GPIOS s)
      ∧ (is_supported_silicon_rev s.silicon_rev = true →
          (∀ rev, RealizeStep.error_setg rev
              ∉ aspeed_scu_realize is_supported_silicon_rev ASPEED_GPIO_NR_GPIOS s)
          ∧ aspeed_scu_realize is_supported_silicon_rev ASPEED_GPIO_NR_GPIOS s
            = [RealizeStep.memory_region_init_io 0x1000, RealizeStep.sysbus_init_mmio,
                RealizeStep.qdev_init_gpio_in ASPEED_GPIO_NR_GPIOS,
                RealizeStep.sysbus_init_irq]) := by
  constructor
  · intro h
    simp [aspeed_scu_realize, h]
  · intro h
    simp [aspeed_scu_realize, h]

/-- C20. For a pin `n` of group 0 and every level, the call returns a state in which
every register word other than the data word and the `irq_status` word of the group is
the one before the call: in particular the direction, `irq_enable`, the three
`irq_sense` words, reset and debounce, and every word outside the group. Here `g` is
the entry of `gpio_groups` for group 0. -/
theorem pin_update_frame (s : AspeedGPIOState) (n : Nat) (level : Int)
    (g : aspeed_gpio_group) (hg : gpio_groups[TO_GROUP n]? = some g) (h0 : TO_GROUP n = 0) :
    ∃ s', aspeed_gpio_irq s n level = some s'
      ∧ (∀ j, j ≠ g.data → j ≠ g.irq_status → rd s' j = rd s j)
      ∧ (∀ w ∈ [g.dir, g.irq_enable, g.irq_sense + 0, g.irq_sense + 1, g.irq_sense + 2,
            g.reset, g.debounce], rd s' w = rd s w) := by
  rcases group_cases hg with ⟨_, rfl⟩ | ⟨h32, _, _⟩
  swap
  · unfold TO_GROUP at h0; omega
  have frame : ∀ s', aspeed_gpio_irq s n level = some s' →
      ∀ j, j ≠ group_ABCD.data → j ≠ group_ABCD.irq_status → rd s' j = rd s j := by
    intro s' hs' j hd hst
    by_cases hn : n ≤ s.nr_gpios
    · rw [aspeed_gpio_irq_accept s n level _ hn hg] at hs'
      cases hs'
      rw [rd_irq_tail_config _ n level j hd hst, rd_direction_test]
    · rw [aspeed_gpio_irq_reject s n level (by omega)] at hs'
      cases hs'
      rfl
  have hex : ∃ s', aspeed_gpio_irq s n level = some s' := by
    by_cases hn : n ≤ s.nr_gpios
    · exact ⟨_, aspeed_gpio_irq_accept s n level _ hn hg⟩
    · exact ⟨_, aspeed_gpio_irq_reject s n level (by omega)⟩
  obtain ⟨s', hs'⟩ := hex
  refine ⟨s', hs', frame s' hs', ?_⟩
  intro w hw
  apply frame s' hs' w
  · revert hw; simp only [List.mem_cons, List.mem_singleton, List.not_mem_nil, or_false]
    rintro (h | h | h | h | h | h | h) <;> rw [h] <;> decide
  · revert hw; simp only [List.mem_cons, List.mem_singleton, List.not_mem_nil, or_false]
    rintro (h | h | h | h | h | h | h) <;> rw [h] <;> decide

theorem pin_update_frame_witness :
    ∃ s', aspeed_gpio_irq highPin3 3 1 = some s'
      ∧ (∀ j, j ≠ group_ABCD.data → j ≠ group_ABCD.irq_status → rd s' j = rd highPin3 j)
      ∧ (∀ w ∈ [group_ABCD.dir, group_ABCD.irq_enable, group_ABCD.irq_sense + 0,
            group_ABCD.irq_sense + 1, group_ABCD.irq_sense + 2, group_ABCD.reset,
            group_ABCD.debounce], rd s' w = rd highPin3 w) :=
  pin_update_frame highPin3 3 1 group_ABCD (by decide) (by decide)
end AspeedGpio

namespace AspeedLpc

open AspeedGpio

/-! ## Register dispatch (C14, C15, C16, C17) -/

/-- Inside the I/O region the conversions lose nothing: the word index the handlers
compute is `offset >> 2`. -/
theorem reg_in_region (offset : Nat) (h : offset < LPC_IO_REGION_SIZE) :
    to_int (TO_REG offset) = ((offset / 4 : Nat) : Int)
      ∧ to_size_t (to_int (TO_REG offset)) = offset / 4
      ∧ (to_int (TO_REG offset)).toNat = offset / 4 := by
  have hdiv : TO_REG offset = offset / 4 := by
    unfold TO_REG
    rw [Nat.shiftRight_eq_div_pow]
  have hlt : offset / 4 < 1024 := by
    unfold LPC_IO_REGION_SIZE at h
    omega
  have h1 : to_int (TO_REG offset) = ((offset / 4 : Nat) : Int) := by
    rw [hdiv]
    unfold to_int
    have hm : offset / 4 % 4294967296 = offset / 4 := Nat.mod_eq_of_lt (by omega)
    rw [hm, if_pos (by omega)]
  refine ⟨h1, ?_, ?_⟩
  · rw [h1]
    unfold to_size_t
    omega
  · rw [h1]
    omega

theorem TO_REG_eq_div (offset : Nat) : TO_REG offset = offset / 4 := by
  unfold TO_REG
  rw [Nat.shiftRight_eq_div_pow]

theorem in_range_in_region (offset : Nat) (h : TO_REG offset < ASPEED_LPC_NR_REGS) :
    offset < LPC_IO_REGION_SIZE := by
  rw [TO_REG_eq_div] at h
  have : ASPEED_LPC_NR_REGS = 152 := by decide
  unfold LPC_IO_REGION_SIZE
  omega

theorem aspeed_lpc_read_in_range (s : AspeedLPCState) (offset size : Nat)
    (h : TO_REG offset < ASPEED_LPC_NR_REGS) :
    aspeed_lpc_read s offset size = ((s.regs (TO_REG offset)).val, s) := by
  obtain ⟨_, h2, h3⟩ := reg_in_region offset (in_range_in_region offset h)
  unfold aspeed_lpc_read
  simp only [h2, h3]
  rw [TO_REG_eq_div] at h
  rw [if_neg (by omega), TO_REG_eq_div]

theorem aspeed_lpc_write_in_range (s : AspeedLPCState) (offset data size : Nat)
    (h : TO_REG offset < ASPEED_LPC_NR_REGS) :
    aspeed_lpc_write s offset data size
      = { s with regs := fun j => if j = TO_REG offset then u32 data else s.regs j } := by
  obtain ⟨_, h2, h3⟩ := reg_in_region offset (in_range_in_region offset h)
  unfold aspeed_lpc_write
  simp only [h2, h3]
  rw [TO_REG_eq_div] at h
  rw [if_neg (by omega), TO_REG_eq_div]

theorem aspeed_lpc_out_of_range (s : AspeedLPCState) (offset data size : Nat)
    (hreg : offset < LPC_IO_REGION_SIZE) (hout : ASPEED_LPC_NR_REGS ≤ TO_REG offset) :
    aspeed_lpc_read s offset size = (0, { s with guest_errors := s.guest_errors + 1 })
      ∧ aspeed_lpc_write s offset data size = { s with guest_errors := s.guest_errors + 1 } := by
  obtain ⟨_, h2, _⟩ := reg_in_region offset hreg
  rw [TO_REG_eq_div] at hout
  unfold aspeed_lpc_read aspeed_lpc_write
  simp only [h2]
  rw [if_pos (by omega), if_pos (by omega)]
  exact ⟨rfl, rfl⟩

/-- Outside the I/O region the conversion of the word index to `int` (reduction modulo
`2^32`, as compilers define it) can bring it back inside the register file: the read at
offset `2^34` returns word 0. The memory core does not dispatch such an offset. -/
theorem aspeed_lpc_read_beyond_region :
    ¬ (0x400000000 < LPC_IO_REGION_SIZE) ∧ (aspeed_lpc_read allEight 0x400000000 4).1 = 8 := by
  decide

/-- C14. For a byte offset of the I/O region whose word index `offset >> 2` is not
below the number of register words, `aspeed_lpc_read` returns 0 and leaves the register
file unchanged, and `aspeed_lpc_write` leaves every register word unchanged, for every
written value. The handlers are registered for a region of `LPC_IO_REGION_SIZE` bytes,
so the offsets they receive are below that size. -/
theorem lpc_out_of_range_access (s : AspeedLPCState) (offset data size : Nat)
    (hreg : offset < LPC_IO_REGION_SIZE) (hout : ASPEED_LPC_NR_REGS ≤ TO_REG offset) :
    (aspeed_lpc_read s offset size).1 = 0
      ∧ (aspeed_lpc_read s offset size).2.regs = s.regs
      ∧ (aspeed_lpc_write s offset data size).regs = s.regs := by
  obtain ⟨hr, hw⟩ := aspeed_lpc_out_of_range s offset data size hreg hout
  rw [hr, hw]
  exact ⟨rfl, rfl, rfl⟩

theorem lpc_out_of_range_access_witness :
    (aspeed_lpc_read allEight 0x260 4).1 = 0
      ∧ (aspeed_lpc_read allEight 0x260 4).2.regs = allEight.regs
      ∧ (aspeed_lpc_write allEight 0x260 5 4).regs = allEight.regs :=
  lpc_out_of_range_access allEight 0x260 5 4 (by decide) (by decide)

/-- C15. Register round trip: for a word-aligned offset inside the register file and a
value `v` of 32 bits, `aspeed_lpc_write` of `v` followed by `aspeed_lpc_read` at the
same offset returns `v`, and the write changes no register word other than the one at
index `offset >> 2`. -/
theorem lpc_write_read_round_trip (s : AspeedLPCState) (offset v size : Nat)
    (_halign : offset % 4 = 0) (hin : TO_REG offset < ASPEED_LPC_NR_REGS)
    (hv : v < 2 ^ 32) :
    (aspeed_lpc_read (aspeed_lpc_write s offset v size) offset size).1 = v
      ∧ ∀ i, i ≠ TO_REG offset → (aspeed_lpc_write s offset v size).regs i = s.regs i := by
  rw [aspeed_lpc_read_in_range _ offset size hin, aspeed_lpc_write_in_range s offset v size hin]
  constructor
  · simp only [if_pos, u32]
    exact Nat.mod_eq_of_lt hv
  · intro i hi
    simp only [if_neg hi]

theorem lpc_write_read_round_trip_witness :
    (aspeed_lpc_read (aspeed_lpc_write allEight 0x18 5 4) 0x18 4).1 = 5
      ∧ ∀ i, i ≠ TO_REG 0x18 → (aspeed_lpc_write allEight 0x18 5 4).regs i = allEight.regs i :=
  lpc_write_read_round_trip allEight 0x18 5 4 (by decide) (by decide) (by decide)

/-- C16. An access whose byte offset is not a multiple of 4, or whose size is not 4
bytes, is invalid for the table `aspeed_lpc_ops`: the dispatch returns 0 for a read and
leaves every register word unchanged for a read and for a write. -/
theorem invalid_access_rejected (s : AspeedLPCState) (offset data size : Nat)
    (h : offset % 4 ≠ 0 ∨ size ≠ 4) :
    (dispatch_read aspeed_lpc_ops s offset size).1 = 0
      ∧ (dispatch_read aspeed_lpc_ops s offset size).2.regs = s.regs
      ∧ (dispatch_write aspeed_lpc_ops s offset data size).regs = s.regs := by
  have hv : access_valid aspeed_lpc_ops offset size = false := by
    unfold access_valid aspeed_lpc_ops
    rcases h with h | h
    · simp [h]
    · simp only [Bool.false_or, Bool.and_eq_false_imp, Bool.and_eq_true, decide_eq_true_eq]
      intro h1
      omega
  unfold dispatch_read dispatch_write
  rw [hv]
  exact ⟨rfl, rfl, rfl⟩

theorem invalid_access_rejected_witness :
    (dispatch_read aspeed_lpc_ops allEight 0x19 4).1 = 0
      ∧ (dispatch_read aspeed_lpc_ops allEight 0x19 4).2.regs = allEight.regs
      ∧ (dispatch_write aspeed_lpc_ops allEight 0x19 5 4).regs = allEight.regs :=
  invalid_access_rejected allEight 0x19 5 4 (Or.inl (by decide))

/-- C17. After `aspeed_lpc_reset` every register word is zero: for every state before
and every offset inside the register file, a read after the reset returns 0. -/
theorem lpc_reset_reads_zero (s : AspeedLPCState) (offset size : Nat)
    (hin : TO_REG offset < ASPEED_LPC_NR_REGS) :
    (aspeed_lpc_read (aspeed_lpc_reset s) offset size).1 = 0
      ∧ ∀ i, i < ASPEED_LPC_NR_REGS → ((aspeed_lpc_reset s).regs i).val = 0 := by
  rw [aspeed_lpc_read_in_range _ offset size hin]
  unfold aspeed_lpc_reset
  constructor
  · simp only [if_pos hin]
    rfl
  · intro i hi
    simp only [if_pos hi]
    rfl

theorem lpc_reset_reads_zero_witness :
    (aspeed_lpc_read (aspeed_lpc_reset allEight) 0x18 4).1 = 0
      ∧ ∀ i, i < ASPEED_LPC_NR_REGS → ((aspeed_lpc_reset allEight).regs i).val = 0 :=
  lpc_reset_reads_zero allEight 0x18 4 (by decide)

end AspeedLpc

namespace AspeedGpio

/-! ## Bounds of a pin update (C21) -/

/-- Every pin number below 64 has an entry in `gpio_groups`, and every word the handler
reads or writes through that entry is below the length of the register file. -/
theorem pin_update_in_bounds (n : Nat) (h : n < 64) :
    ∃ g, gpio_groups[TO_GROUP n]? = some g
      ∧ ∀ w ∈ handler_words g, w < ASPEED_SCU_NR_REGS := by
  have h2 : TO_GROUP n = 0 ∨ TO_GROUP n = 1 := by unfold TO_GROUP; omega
  rcases h2 with h0 | h1
  · exact ⟨group_ABCD, by rw [h0]; rfl, by decide⟩
  · exact ⟨group_EFGH, by rw [h1]; rfl, by decide⟩

/-- C21, the code at the failing input. With `nr_gpios = 64` the range test
`n > s->nr_gpios` does not reject pin 64; its group number `64 / 32 = 2` is past the two
entries of `gpio_groups`, so the handler reads the table outside its bounds and has no
defined result. Every pin number below 64 has an entry whose words are below the length
of the register file (`pin_update_in_bounds`). -/
theorem pin_64_not_rejected :
    (zeroState 64).nr_gpios ≤ 64 ∧ ¬ (64 > (zeroState 64).nr_gpios)
      ∧ TO_GROUP 64 = 2 ∧ gpio_groups.length = 2 ∧ gpio_groups[TO_GROUP 64]? = none
      ∧ (aspeed_gpio_irq (zeroState 64) 64 1).isNone = true := by
  decide

/-! ## The handler on group A/B/C/D, field by field -/

theorem regs_ext (s t : AspeedGPIOState) (h : ∀ j, rd s j = rd t j) : s.regs = t.regs := by
  funext j
  exact Fin.ext (h j)

theorem or_GROUP_BIT_mod (x n : Nat) (hx : x < UINT32_SIZE) :
    (x ||| GROUP_BIT n) % UINT32_SIZE = x ||| GROUP_BIT n := by
  apply Nat.mod_eq_of_lt
  have h32 : UINT32_SIZE = 2 ^ 32 := by decide
  rw [h32] at hx ⊢
  exact Nat.or_lt_two_pow hx (h32 ▸ GROUP_BIT_lt n)

/-- The handler from the capture of `old` on, for a pin of group A/B/C/D, field by
field of the state it returns. -/
theorem irq_tail_ABCD_fields (s1 : AspeedGPIOState) (n : Nat) (level : Int) :
    rd (irq_tail s1 group_ABCD n level) 0 = data_after (rd s1 0) n level
      ∧ rd (irq_tail s1 group_ABCD n level) 6
          = (if pin_fires s1 n level = true then rd s1 6 ||| GROUP_BIT n else rd s1 6)
      ∧ (irq_tail s1 group_ABCD n level).irq = (pin_fires s1 n level || s1.irq)
      ∧ (irq_tail s1 group_ABCD n level).irq_raises
          = s1.irq_raises + (if pin_fires s1 n level = true then 1 else 0)
      ∧ (irq_tail s1 group_ABCD n level).guest_errors = s1.guest_errors
      ∧ (irq_tail s1 group_ABCD n level).silicon_rev = s1.silicon_rev := by
  rw [irq_tail_group0]
  unfold pin_fires
  split
  · next h =>
    rw [h]
    refine ⟨?_, ?_, rfl, rfl, rfl, rfl⟩
    · rw [rd_raise, rd_wr, if_neg (by decide), rd_wr, if_pos rfl, data_after_mod]
    · rw [rd_raise, rd_wr, if_pos rfl, or_GROUP_BIT_mod _ _ (rd_lt _ _)]
  · next h =>
    have h' : (aspeed_gpio_irq_enabled s1 group_ABCD n && pin_fire s1 group_ABCD n level)
        = false := by simpa using h
    rw [h']
    refine ⟨?_, ?_, ?_, rfl, rfl, rfl⟩
    · rw [rd_wr, if_pos rfl, data_after_mod]
    · rw [rd_wr, if_neg (by decide)]
    · rw [Bool.false_or]
      rfl

theorem pin_fires_direction_test (s : AspeedGPIOState) (c : Bool) (n : Nat) (level : Int) :
    pin_fires (if c = true then qemu_log_guest_error s else s) n level = pin_fires s n level := by
  cases c <;> rfl

/-- An accepted call for a pin of group A/B/C/D, field by field of the state it
returns, in terms of the state before. -/
theorem aspeed_gpio_irq_ABCD (s : AspeedGPIOState) (n : Nat) (level : Int)
    (hn : n ≤ s.nr_gpios) (h32 : n < 32) :
    ∃ s', aspeed_gpio_irq s n level = some s'
      ∧ rd s' 0 = data_after (rd s 0) n level
      ∧ rd s' 6 = (if pin_fires s n level = true then rd s 6 ||| GROUP_BIT n else rd s 6)
      ∧ (∀ j, j ≠ 0 → j ≠ 6 → rd s' j = rd s j)
      ∧ s'.irq = (pin_fires s n level || s.irq)
      ∧ s'.irq_raises = s.irq_raises + (if pin_fires s n level = true then 1 else 0)
      ∧ s'.guest_errors
          = s.guest_errors + (if aspeed_gpio_is_input s group_ABCD n = true then 0 else 1)
      ∧ s'.nr_gpios = s.nr_gpios ∧ s'.silicon_rev = s.silicon_rev := by
  have hg : gpio_groups[TO_GROUP n]? = some group_ABCD := by
    have : TO_GROUP n = 0 := by unfold TO_GROUP; omega
    rw [this]; rfl
  refine ⟨_, aspeed_gpio_irq_accept s n level _ hn hg, ?_⟩
  obtain ⟨f0, f6, firq, fr, fe, fv⟩ := irq_tail_ABCD_fields
    (if (!aspeed_gpio_is_input s group_ABCD n) = true then qemu_log_guest_error s else s) n level
  rw [pin_fires_direction_test] at f6 firq fr
  rw [rd_direction_test] at f0 f6
  rw [irq_direction_test] at firq
  refine ⟨f0, f6, ?_, firq, ?_, ?_, ?_, ?_⟩
  · intro j h0 h6
    rw [rd_irq_tail_config _ n level j h0 h6, rd_direction_test]
  · rw [fr]
    cases aspeed_gpio_is_input s group_ABCD n <;> rfl
  · rw [fe]
    cases aspeed_gpio_is_input s group_ABCD n <;> rfl
  · rw [nr_gpios_irq_tail]
    cases aspeed_gpio_is_input s group_ABCD n <;> rfl
  · rw [fv]
    cases aspeed_gpio_is_input s group_ABCD n <;> rfl

/-! ## Idempotence and pin independence (C22, C23) -/

/-- Whether a pin of group A/B/C/D fires depends on the enable word, the three sense
words and the data bit of the pin only. -/
theorem pin_fires_congr (s s' : AspeedGPIOState) (n : Nat) (level : Int)
    (h2 : rd s' 2 = rd s 2) (h3 : rd s' 3 = rd s 3) (h4 : rd s' 4 = rd s 4)
    (h5 : rd s' 5 = rd s 5)
    (hb : (rd s' 0).testBit (n % 32) = (rd s 0).testBit (n % 32)) :
    pin_fires s' n level = pin_fires s n level := by
  unfold pin_fires pin_fire aspeed_gpio_irq_enabled aspeed_gpio_irq_low aspeed_gpio_irq_high
    aspeed_gpio_irq_rising aspeed_gpio_irq_falling aspeed_gpio_irq_both
  simp only [pin_bit_eq, show group_ABCD.data = 0 from rfl,
    show group_ABCD.irq_enable = 2 from rfl, show group_ABCD.irq_sense + 0 = 3 from rfl,
    show group_ABCD.irq_sense + 1 = 4 from rfl, show group_ABCD.irq_sense + 2 = 5 from rfl,
    h2, h3, h4, h5, hb]

theorem is_input_congr (s s' : AspeedGPIOState) (n : Nat) (h1 : rd s' 1 = rd s 1) :
    aspeed_gpio_is_input s' group_ABCD n = aspeed_gpio_is_input s group_ABCD n := by
  unfold aspeed_gpio_is_input
  simp only [show group_ABCD.dir = 1 from rfl, h1]

/-- A pin that already carries the level of the call fires only under a level sense,
under which the call that gave it that level fired as well. -/
theorem pin_fires_repeat (s s' : AspeedGPIOState) (n : Nat) (level : Int)
    (h2 : rd s' 2 = rd s 2) (h3 : rd s' 3 = rd s 3) (h4 : rd s' 4 = rd s 4)
    (h5 : rd s' 5 = rd s 5)
    (hb : (rd s' 0).testBit (n % 32) = decide (level ≠ 0))
    (hf : pin_fires s' n level = true) : pin_fires s n level = true := by
  revert hf
  unfold pin_fires pin_fire spec_fire aspeed_gpio_irq_enabled aspeed_gpio_irq_low
    aspeed_gpio_irq_high aspeed_gpio_irq_rising aspeed_gpio_irq_falling aspeed_gpio_irq_both
  simp only [pin_bit_eq, show group_ABCD.data = 0 from rfl,
    show group_ABCD.irq_enable = 2 from rfl, show group_ABCD.irq_sense + 0 = 3 from rfl,
    show group_ABCD.irq_sense + 1 = 4 from rfl, show group_ABCD.irq_sense + 2 = 5 from rfl,
    and_GROUP_BIT_ne_zero, h2, h3, h4, h5, hb]
  by_cases hl : level = 0 <;>
  cases (rd s 2).testBit (n % 32) <;> cases (rd s 5).testBit (n % 32) <;>
    cases (rd s 4).testBit (n % 32) <;> cases (rd s 3).testBit (n % 32) <;>
    cases (rd s 0).testBit (n % 32) <;> simp [hl]

theorem data_after_idem (x n : Nat) (level : Int) (hx : x < UINT32_SIZE) :
    data_after (data_after x n level) n level = data_after x n level := by
  apply data_after_same _ _ _ (data_after_lt _ _ _)
  rw [testBit_data_after _ _ _ _ hx, if_pos rfl]

theorem data_after_comm (x n m : Nat) (a b : Int) (hx : x < UINT32_SIZE)
    (hne : n % 32 ≠ m % 32) :
    data_after (data_after x n a) m b = data_after (data_after x m b) n a := by
  apply Nat.eq_of_testBit_eq
  intro i
  rw [testBit_data_after _ _ _ _ (data_after_lt _ _ _), testBit_data_after _ _ _ _ hx,
    testBit_data_after _ _ _ _ (data_after_lt _ _ _), testBit_data_after _ _ _ _ hx]
  by_cases hm : i = m % 32
  · have hn : ¬ i = n % 32 := fun h => hne (h.symm.trans hm)
    rw [if_pos hm, if_neg hn, if_pos hm]
  · rw [if_neg hm, if_neg hm]

theorem GROUP_BIT_or_mod (x n : Nat) (hx : x < UINT32_SIZE) :
    x ||| GROUP_BIT n < UINT32_SIZE := by
  rw [← or_GROUP_BIT_mod x n hx]
  exact Nat.mod_lt _ (by decide)

theorem or_GROUP_BIT_idem (x n : Nat) : x ||| GROUP_BIT n ||| GROUP_BIT n = x ||| GROUP_BIT n := by
  rw [Nat.lor_assoc, Nat.or_self]

theorem or_GROUP_BIT_comm (x n m : Nat) :
    x ||| GROUP_BIT n ||| GROUP_BIT m = x ||| GROUP_BIT m ||| GROUP_BIT n := by
  rw [Nat.lor_assoc, Nat.lor_comm (GROUP_BIT n), ← Nat.lor_assoc]

/-- The handler on a pin of group E/F/G/H, word by word of the register file. -/
theorem rd_irq_tail_EFGH (s1 : AspeedGPIOState) (n : Nat) (level : Int) (j : Nat) :
    rd (irq_tail s1 group_EFGH n level) j
      = if j = 0 then data_after (rd s1 0) n level else rd s1 j := by
  rw [irq_tail_group1]
  split
  · rw [rd_raise, rd_wr, data_after_mod]
  · rw [rd_wr, data_after_mod]

/-- C22. The effect of a pin update on the register file is idempotent: for every
state, pin and level, when the call returns a state, the same call on that state
returns a state with the same register file. The call returns a state for every pin
number below 64 and for every pin number it rejects; for a pin number of 64 or more
that passes the range test the table is read outside its bounds and there is no state
to compare. -/
theorem pin_update_idempotent (s : AspeedGPIOState) (n : Nat) (level : Int) :
    (∀ s1, aspeed_gpio_irq s n level = some s1 →
        ∃ s2, aspeed_gpio_irq s1 n level = some s2 ∧ s2.regs = s1.regs)
      ∧ ((n < 64 ∨ s.nr_gpios < n) → ∃ s1, aspeed_gpio_irq s n level = some s1) := by
  constructor
  · intro s1 h1
    by_cases hn : n ≤ s.nr_gpios
    swap
    · rw [aspeed_gpio_irq_reject s n level (by omega)] at h1
      cases h1
      exact ⟨_, aspeed_gpio_irq_reject _ n level (by show s.nr_gpios < n; omega), rfl⟩
    cases hgl : gpio_groups[TO_GROUP n]? with
    | none =>
      rw [aspeed_gpio_irq_no_group s n level hn hgl] at h1
      cases h1
    | some g =>
      rcases group_cases hgl with ⟨h32, rfl⟩ | ⟨_, _, rfl⟩
      · obtain ⟨t1, e1, a0, a6, aj, -, -, -, anr, -⟩ := aspeed_gpio_irq_ABCD s n level hn h32
        rw [e1] at h1
        cases h1
        obtain ⟨t2, e2, b0, b6, bj, -⟩ := aspeed_gpio_irq_ABCD s1 n level (by omega) h32
        refine ⟨t2, e2, regs_ext _ _ fun j => ?_⟩
        by_cases h0 : j = 0
        · rw [h0, b0, a0, data_after_idem _ _ _ (rd_lt _ _)]
        by_cases h6 : j = 6
        · rw [h6, b6]
          split
          · next hf =>
            have hb : (rd s1 0).testBit (n % 32) = decide (level ≠ 0) := by
              rw [a0, testBit_data_after _ _ _ _ (rd_lt _ _), if_pos rfl]
            have hfs := pin_fires_repeat s s1 n level (aj 2 (by decide) (by decide))
              (aj 3 (by decide) (by decide)) (aj 4 (by decide) (by decide))
              (aj 5 (by decide) (by decide)) hb hf
            rw [a6, if_pos hfs, or_GROUP_BIT_idem]
          · rfl
        · exact bj j h0 h6
      · rw [aspeed_gpio_irq_accept s n level _ hn hgl] at h1
        cases h1
        have hn1 : n ≤ (irq_tail (if (!aspeed_gpio_is_input s group_EFGH n) = true
            then qemu_log_guest_error s else s) group_EFGH n level).nr_gpios := by
          rw [nr_gpios_irq_tail]
          cases (!aspeed_gpio_is_input s group_EFGH n) <;> exact hn
        refine ⟨_, aspeed_gpio_irq_accept _ n level _ hn1 hgl, regs_ext _ _ fun j => ?_⟩
        rw [rd_irq_tail_EFGH, rd_direction_test]
        by_cases h0 : j = 0
        · rw [if_pos h0, h0, rd_irq_tail_EFGH, if_pos rfl,
            data_after_idem _ _ _ (rd_lt _ _)]
        · rw [if_neg h0]
          exact rd_direction_test _ _ j
  · rintro (h | h)
    · by_cases hn : n ≤ s.nr_gpios
      · obtain ⟨g, hg, -⟩ := pin_update_in_bounds n h
        exact ⟨_, aspeed_gpio_irq_accept s n level g hn hg⟩
      · exact ⟨_, aspeed_gpio_irq_reject s n level (by omega)⟩
    · exact ⟨_, aspeed_gpio_irq_reject s n level h⟩

theorem state_ext (s t : AspeedGPIOState) (hr : ∀ j, rd s j = rd t j)
    (hn : s.nr_gpios = t.nr_gpios) (hv : s.silicon_rev = t.silicon_rev) (hi : s.irq = t.irq)
    (hc : s.irq_raises = t.irq_raises) (he : s.guest_errors = t.guest_errors) : s = t := by
  have hregs := regs_ext s t hr
  cases s
  cases t
  simp only [AspeedGPIOState.mk.injEq]
  exact ⟨hregs, hn, hv, hi, hc, he⟩

theorem raised_eq (s s' : AspeedGPIOState) (f : Bool)
    (h : s'.irq_raises = s.irq_raises + (if f = true then 1 else 0)) : raised s s' = f := by
  unfold raised
  rw [h]
  cases f <;> simp

/-- C23. Pin independence: for two distinct in-range pins `n` and `m` of group 0 and
levels `a` and `b`, the calls for `n` then `m` and the calls for `m` then `n` all
return, the register file is the same at the end in either order, the call for each pin
raises the interrupt line in one order if and only if it does in the other, and the
whole final state is the same. -/
theorem pin_updates_commute (s : AspeedGPIOState) (n m : Nat) (a b : Int)
    (hn : n < s.nr_gpios) (hm : m < s.nr_gpios) (hgn : TO_GROUP n = 0) (hgm : TO_GROUP m = 0)
    (hne : n ≠ m) :
    ∃ s1 s2 t1 t2, aspeed_gpio_irq s n a = some s1 ∧ aspeed_gpio_irq s1 m b = some s2
      ∧ aspeed_gpio_irq s m b = some t1 ∧ aspeed_gpio_irq t1 n a = some t2
      ∧ s2.regs = t2.regs
      ∧ raised s s1 = raised t1 t2 ∧ raised s1 s2 = raised s t1
      ∧ s2 = t2 := by
  have hn32 : n < 32 := by unfold TO_GROUP at hgn; omega
  have hm32 : m < 32 := by unfold TO_GROUP at hgm; omega
  have hk : n % 32 ≠ m % 32 := by omega
  obtain ⟨s1, e1, a0, a6, aj, airq, ar, ae, anr, av⟩ := aspeed_gpio_irq_ABCD s n a hn.le hn32
  obtain ⟨t1, e3, c0, c6, cj, cirq, cr, ce, cnr, cv⟩ := aspeed_gpio_irq_ABCD s m b hm.le hm32
  obtain ⟨s2, e2, b0, b6, bj, birq, br, be, bnr, bv⟩ :=
    aspeed_gpio_irq_ABCD s1 m b (by omega) hm32
  obtain ⟨t2, e4, d0, d6, dj, dirq, dr, de, dnr, dv⟩ :=
    aspeed_gpio_irq_ABCD t1 n a (by omega) hn32
  -- the second call of each order sees the same decision and the same direction
  have fm : pin_fires s1 m b = pin_fires s m b :=
    pin_fires_congr s s1 m b (aj 2 (by decide) (by decide)) (aj 3 (by decide) (by decide))
      (aj 4 (by decide) (by decide)) (aj 5 (by decide) (by decide))
      (by rw [a0, testBit_data_after _ _ _ _ (rd_lt _ _), if_neg (Ne.symm hk)])
  have fn : pin_fires t1 n a = pin_fires s n a :=
    pin_fires_congr s t1 n a (cj 2 (by decide) (by decide)) (cj 3 (by decide) (by decide))
      (cj 4 (by decide) (by decide)) (cj 5 (by decide) (by decide))
      (by rw [c0, testBit_data_after _ _ _ _ (rd_lt _ _), if_neg hk])
  have im : aspeed_gpio_is_input s1 group_ABCD m = aspeed_gpio_is_input s group_ABCD m :=
    is_input_congr s s1 m (aj 1 (by decide) (by decide))
  have inn : aspeed_gpio_is_input t1 group_ABCD n = aspeed_gpio_is_input s group_ABCD n :=
    is_input_congr s t1 n (cj 1 (by decide) (by decide))
  rw [fm] at b6 birq br
  rw [fn] at d6 dirq dr
  rw [im] at be
  rw [inn] at de
  have hrd : ∀ j, rd s2 j = rd t2 j := by
    intro j
    by_cases h0 : j = 0
    · rw [h0, b0, a0, d0, c0, data_after_comm _ _ _ _ _ (rd_lt _ _) hk]
    by_cases h6 : j = 6
    · rw [h6, b6, a6, d6, c6]
      cases pin_fires s n a <;> cases pin_fires s m b <;>
        simp [or_GROUP_BIT_comm]
    · rw [bj j h0 h6, aj j h0 h6, dj j h0 h6, cj j h0 h6]
  refine ⟨s1, s2, t1, t2, e1, e2, e3, e4, regs_ext _ _ hrd, ?_, ?_, ?_⟩
  · rw [raised_eq s s1 _ ar, raised_eq t1 t2 _ dr]
  · rw [raised_eq s1 s2 _ br, raised_eq s t1 _ cr]
  · apply state_ext _ _ hrd
    · rw [bnr, anr, dnr, cnr]
    · rw [bv, av, dv, cv]
    · rw [birq, airq, dirq, cirq]
      cases pin_fires s n a <;> cases pin_fires s m b <;> cases s.irq <;> rfl
    · rw [br, ar, dr, cr]
      omega
    · rw [be, ae, de, ce]
      omega

theorem pin_updates_commute_witness :
    ∃ s1 s2 t1 t2, aspeed_gpio_irq highPin3 3 1 = some s1 ∧ aspeed_gpio_irq s1 5 1 = some s2
      ∧ aspeed_gpio_irq highPin3 5 1 = some t1 ∧ aspeed_gpio_irq t1 3 1 = some t2
      ∧ s2.regs = t2.regs
      ∧ raised highPin3 s1 = raised t1 t2 ∧ raised s1 s2 = raised highPin3 t1
      ∧ s2 = t2 :=
  pin_updates_commute highPin3 3 5 1 1 (by decide) (by decide) (by decide) (by decide)
    (by decide)

end AspeedGpio

namespace PMBus

open AspeedGpio

/-! ## Stores through the selected page -/

theorem current_page_of_valid (s : PMBusDevice) (h : valid_page s) :
    ∃ pg, current_page s = some pg := by
  have hp : s.page.val < s.pages.length := by rw [h.1]; exact h.2
  exact ⟨s.pages[s.page.val], List.getElem?_eq_getElem hp⟩

/-- A store through the selected page, when that page is inside the array: the page
becomes `f pg` and nothing else changes. -/
theorem update_page_spec (s : PMBusDevice) (f : PMBusPage → PMBusPage) (pg : PMBusPage)
    (h : current_page s = some pg) :
    ∃ s', update_page s f = some s' ∧ current_page s' = some (f pg)
      ∧ other_pages_kept s s' ∧ s'.guest_errors = s.guest_errors := by
  unfold current_page at h
  have hp : s.page.val < s.pages.length := (List.getElem?_eq_some.mp h).1
  refine ⟨{ s with pages := s.pages.set s.page.val (f pg) }, ?_, ?_, ?_, rfl⟩
  · unfold update_page
    rw [h]
  · unfold current_page
    exact List.getElem?_set_self hp
  · refine ⟨rfl, rfl, List.length_set _ _ _, fun j hj => ?_⟩
    exact List.getElem?_set_ne (Ne.symm hj)

theorem or_lt_256 (x y : Nat) (hx : x < 256) (hy : y < 256) : (x ||| y) % 256 = x ||| y := by
  apply Nat.mod_eq_of_lt
  have h : (256 : Nat) = 2 ^ 8 := by decide
  rw [h] at hx hy ⊢
  exact Nat.or_lt_two_pow hx hy

/-- The `default` case of the handlers latches the invalid-command error. -/
theorem latch_spec (s : PMBusDevice) (h : valid_page s) :
    ∃ s', update_page s latch_invalid_command = some s' ∧ invalid_command_latched s s' := by
  obtain ⟨pg, hpg⟩ := current_page_of_valid s h
  obtain ⟨s', e, hc, hk, -⟩ := update_page_spec s latch_invalid_command pg hpg
  refine ⟨s', e, pg, latch_invalid_command pg, hpg, hc, ?_, ?_, rfl, hk⟩
  · show (pg.status_byte.val ||| PMBUS_STATUS_BYTE_CML) % 256 = _
    exact or_lt_256 _ _ pg.status_byte.isLt (by decide)
  · show (pg.status_cml.val ||| PMBUS_STATUS_CML_INV_CMD) % 256 = _
    exact or_lt_256 _ _ pg.status_cml.isLt (by decide)

theorem read_data_kept (s : PMBusDevice) : other_pages_kept s s :=
  ⟨rfl, rfl, rfl, fun _ _ => rfl⟩

/-! ## What the handlers leave unchanged -/

theorem update_page_kept (s s' : PMBusDevice) (f : PMBusPage → PMBusPage)
    (h : update_page s f = some s') : other_pages_kept s s' := by
  unfold update_page at h
  split at h
  · cases h
  · cases h
    exact ⟨rfl, rfl, List.length_set _ _ _, fun j hj => List.getElem?_set_ne (Ne.symm hj)⟩

theorem pmbus_read_data_kept (s s' : PMBusDevice) (cmd : Nat) (n : Int) (v : Nat)
    (h : pmbus_read_data s cmd n = some (v, s')) : other_pages_kept s s' := by
  unfold pmbus_read_data at h
  by_cases h0 : cmd = PMBUS_C_PAGE
  · rw [if_pos h0] at h
    cases h
    exact read_data_kept s
  rw [if_neg h0] at h
  by_cases h1 : cmd = PMBUS_C_CAPABILITY
  · rw [if_pos h1] at h
    simp only [Option.map_eq_some', Prod.mk.injEq] at h
    obtain ⟨pg, -, -, rfl⟩ := h
    exact read_data_kept s
  rw [if_neg h1] at h
  by_cases h2 : cmd = PMBUS_C_VOUT_MODE
  · rw [if_pos h2] at h
    simp only [Option.map_eq_some', Prod.mk.injEq] at h
    obtain ⟨pg, -, -, rfl⟩ := h
    exact read_data_kept s
  rw [if_neg h2] at h
  by_cases h3 : cmd = PMBUS_C_FAN_CONFIG_1_2
  · rw [if_pos h3] at h
    simp only [Option.map_eq_some', Prod.mk.injEq] at h
    obtain ⟨pg, -, -, rfl⟩ := h
    exact read_data_kept s
  rw [if_neg h3] at h
  by_cases h4 : cmd = PMBUS_C_FAN_COMMAND_1
  · rw [if_pos h4] at h
    simp only [Option.bind_eq_some, Option.map_eq_some', Prod.mk.injEq] at h
    obtain ⟨pg, -, w, -, -, rfl⟩ := h
    exact read_data_kept s
  rw [if_neg h4] at h
  by_cases h5 : cmd = PMBUS_C_FAN_COMMAND_2
  · rw [if_pos h5] at h
    simp only [Option.bind_eq_some, Option.map_eq_some', Prod.mk.injEq] at h
    obtain ⟨pg, -, w, -, -, rfl⟩ := h
    exact read_data_kept s
  rw [if_neg h5] at h
  by_cases h6 : cmd = PMBUS_C_FAN_CONFIG_3_4
  · rw [if_pos h6] at h
    simp only [Option.map_eq_some', Prod.mk.injEq] at h
    obtain ⟨pg, -, -, rfl⟩ := h
    exact read_data_kept s
  rw [if_neg h6] at h
  by_cases h7 : cmd = PMBUS_C_FAN_COMMAND_3
  · rw [if_pos h7] at h
    simp only [Option.bind_eq_some, Option.map_eq_some', Prod.mk.injEq] at h
    obtain ⟨pg, -, w, -, -, rfl⟩ := h
    exact read_data_kept s
  rw [if_neg h7] at h
  by_cases h8 : cmd = PMBUS_C_FAN_COMMAND_4
  · rw [if_pos h8] at h
    simp only [Option.bind_eq_some, Option.map_eq_some', Prod.mk.injEq] at h
    obtain ⟨pg, -, w, -, -, rfl⟩ := h
    exact read_data_kept s
  rw [if_neg h8] at h
  by_cases h9 : cmd = PMBUS_C_STATUS_BYTE
  · rw [if_pos h9] at h
    simp only [Option.map_eq_some', Prod.mk.injEq] at h
    obtain ⟨pg, -, -, rfl⟩ := h
    exact read_data_kept s
  rw [if_neg h9] at h
  by_cases h10 : cmd = PMBUS_C_STATUS_FANS_1_2
  · rw [if_pos h10] at h
    simp only [Option.map_eq_some', Prod.mk.injEq] at h
    obtain ⟨pg, -, -, rfl⟩ := h
    exact read_data_kept s
  rw [if_neg h10] at h
  by_cases h11 : cmd = PMBUS_C_STATUS_FANS_3_4
  · rw [if_pos h11] at h
    simp only [Option.map_eq_some', Prod.mk.injEq] at h
    obtain ⟨pg, -, -, rfl⟩ := h
    exact read_data_kept s
  rw [if_neg h11] at h
  by_cases h12 : cmd = PMBUS_C_READ_FAN_SPEED_1
  · rw [if_pos h12] at h
    simp only [Option.bind_eq_some, Option.map_eq_some', Prod.mk.injEq] at h
    obtain ⟨pg, -, w, -, t, ht, -, rfl⟩ := h
    exact update_page_kept _ _ _ ht
  rw [if_neg h12] at h
  simp only [Option.map_eq_some', Prod.mk.injEq] at h
  obtain ⟨t, ht, -, rfl⟩ := h
  exact update_page_kept _ _ _ ht

/-- A write either keeps the selected page index and every other page, or it is a write
of the command `PMBUS_C_PAGE`, which stores the first byte of the buffer as the index
without comparing it with the number of pages. -/
theorem pmbus_write_data_kept (s s' : PMBusDevice) (cmd : Nat) (buf : List (Fin UINT8_SIZE))
    (len : Int) (h : pmbus_write_data s cmd buf len = some s') :
    other_pages_kept s s'
      ∨ ∃ b rest, buf = b :: rest ∧ cmd = PMBUS_C_PAGE ∧ s' = { s with page := b } := by
  unfold pmbus_write_data at h
  by_cases h0 : cmd = PMBUS_C_PAGE
  · rw [if_pos h0] at h
    cases buf with
    | nil => cases h
    | cons b rest =>
      cases h
      exact Or.inr ⟨b, rest, rfl, h0, rfl⟩
  rw [if_neg h0] at h
  by_cases h1 : cmd = PMBUS_C_FAN_CONFIG_1_2
  · rw [if_pos h1] at h
    cases buf with
    | nil => cases h
    | cons b rest => exact Or.inl (update_page_kept _ _ _ h)
  rw [if_neg h1] at h
  by_cases h2 : cmd = PMBUS_C_FAN_COMMAND_1
  · rw [if_pos h2] at h
    by_cases hl : len ≠ 2
    · rw [if_pos hl] at h
      cases h
      exact Or.inl ⟨rfl, rfl, rfl, fun _ _ => rfl⟩
    · rw [if_neg hl] at h
      cases hm : memcpy16 buf with
      | none => rw [hm] at h; cases h
      | some w => rw [hm] at h; exact Or.inl (update_page_kept _ _ _ h)
  rw [if_neg h2] at h
  by_cases h3 : cmd = PMBUS_C_FAN_COMMAND_2
  · rw [if_pos h3] at h
    by_cases hl : len ≠ 2
    · rw [if_pos hl] at h
      cases h
      exact Or.inl ⟨rfl, rfl, rfl, fun _ _ => rfl⟩
    · rw [if_neg hl] at h
      cases hm : memcpy16 buf with
      | none => rw [hm] at h; cases h
      | some w => rw [hm] at h; exact Or.inl (update_page_kept _ _ _ h)
  rw [if_neg h3] at h
  by_cases h4 : cmd = PMBUS_C_FAN_CONFIG_3_4
  · rw [if_pos h4] at h
    cases buf with
    | nil => cases h
    | cons b rest => exact Or.inl (update_page_kept _ _ _ h)
  rw [if_neg h4] at h
  by_cases h5 : cmd = PMBUS_C_FAN_COMMAND_3
  · rw [if_pos h5] at h
    by_cases hl : len ≠ 2
    · rw [if_pos hl] at h
      cases h
      exact Or.inl ⟨rfl, rfl, rfl, fun _ _ => rfl⟩
    · rw [if_neg hl] at h
      cases hm : memcpy16 buf with
      | none => rw [hm] at h; cases h
      | some w => rw [hm] at h; exact Or.inl (update_page_kept _ _ _ h)
  rw [if_neg h5] at h
  by_cases h6 : cmd = PMBUS_C_FAN_COMMAND_4
  · rw [if_pos h6] at h
    by_cases hl : len ≠ 2
    · rw [if_pos hl] at h
      cases h
      exact Or.inl ⟨rfl, rfl, rfl, fun _ _ => rfl⟩
    · rw [if_neg hl] at h
      cases hm : memcpy16 buf with
      | none => rw [hm] at h; cases h
      | some w => rw [hm] at h; exact Or.inl (update_page_kept _ _ _ h)
  rw [if_neg h6] at h
  by_cases h7 : cmd = PMBUS_C_STATUS_FANS_1_2
  · rw [if_pos h7] at h
    cases buf with
    | nil => cases h
    | cons b rest => exact Or.inl (update_page_kept _ _ _ h)
  rw [if_neg h7] at h
  by_cases h8 : cmd = PMBUS_C_STATUS_FANS_3_4
  · rw [if_pos h8] at h
    cases buf with
    | nil => cases h
    | cons b rest => exact Or.inl (update_page_kept _ _ _ h)
  rw [if_neg h8] at h
  exact Or.inl (update_page_kept _ _ _ h)

theorem pmbus_send_byte_kept (s s' : PMBusDevice) (cmd : Nat)
    (h : pmbus_send_byte s cmd = some s') : other_pages_kept s s' := by
  unfold pmbus_send_byte at h
  split at h <;> exact update_page_kept _ _ _ h

/-- The selected page index changes only by a write of the command `PMBUS_C_PAGE`; no
handler changes the number of pages or the length of the array. -/
theorem pmbus_step_page (s s' : PMBusDevice) (c : PMBusCommand)
    (h : pmbus_step s c = some s') :
    s'.nr_pages = s.nr_pages ∧ s'.pages.length = s.pages.length
      ∧ (s'.page = s.page
          ∨ ∃ b rest len, c = PMBusCommand.write_data PMBUS_C_PAGE (b :: rest) len
              ∧ s'.page = b) := by
  cases c with
  | send_byte cmd =>
    have k := pmbus_send_byte_kept s s' cmd h
    exact ⟨k.2.1, k.2.2.1, Or.inl k.1⟩
  | write_data cmd buf len =>
    rcases pmbus_write_data_kept s s' cmd buf len h with k | ⟨b, rest, rfl, rfl, rfl⟩
    · exact ⟨k.2.1, k.2.2.1, Or.inl k.1⟩
    · exact ⟨rfl, rfl, Or.inr ⟨b, rest, len, rfl, rfl⟩⟩
  | read_data cmd n =>
    simp only [pmbus_step, Option.map_eq_some'] at h
    obtain ⟨⟨v, t⟩, hr, rfl⟩ := h
    have k := pmbus_read_data_kept s t cmd n v hr
    exact ⟨k.2.1, k.2.2.1, Or.inl k.1⟩

/-! ## The page index (C24) -/

theorem pmbus_initfn_eq : pmbus_initfn true zeroDevice = some initDevice := by decide

/-- C24, the code at the failing input. The case `PMBUS_C_PAGE` of `pmbus_write_data`
stores the byte of the guest as the page index without comparing it with `nr_pages`.
From the initialised device (page 0, 23 pages), the write of the page command with the
byte 23 leaves the index at 23 with 23 pages, and the next command that uses the
selected page, a read of the status byte or a clear-faults byte, reads `pages[23]`
outside the array: it has no defined result. No other command changes the index
(`pmbus_step_page`). -/
theorem page_index_escapes :
    pmbus_initfn true zeroDevice = some initDevice
      ∧ initDevice.page.val = 0 ∧ initDevice.nr_pages.val = 23
      ∧ initDevice.pages.length = 23
      ∧ (pmbus_run initDevice [PMBusCommand.write_data PMBUS_C_PAGE [23] 1]).map
          (fun s => (s.page.val, s.nr_pages.val, s.pages.length)) = some (23, 23, 23)
      ∧ (pmbus_run initDevice [PMBusCommand.write_data PMBUS_C_PAGE [23] 1,
          PMBusCommand.read_data PMBUS_C_STATUS_BYTE 0]).isNone = true
      ∧ (pmbus_run initDevice [PMBusCommand.write_data PMBUS_C_PAGE [23] 1,
          PMBusCommand.send_byte PMBUS_C_CLEAR_FAULTS]).isNone = true := by
  decide

/-! ## Fan commands (C25, C27) -/

theorem byte_of16_zero (b0 b1 : Fin UINT8_SIZE) :
    byte_of16 (u16 (b0.val + 256 * b1.val)) 0 = some b0.val := by
  have h0 : b0.val < 256 := b0.isLt
  have h1 : b1.val < 256 := b1.isLt
  unfold byte_of16 u16
  rw [if_pos (by decide)]
  simp only [Int.toNat_zero, Nat.mul_zero, Nat.shiftRight_zero, Option.some.injEq,
    UINT8_SIZE, UINT16_SIZE]
  omega

theorem byte_of16_one (b0 b1 : Fin UINT8_SIZE) :
    byte_of16 (u16 (b0.val + 256 * b1.val)) 1 = some b1.val := by
  have h0 : b0.val < 256 := b0.isLt
  have h1 : b1.val < 256 := b1.isLt
  unfold byte_of16 u16
  rw [if_pos (by decide)]
  have e : (8 * (1 : Int).toNat) = 8 := by decide
  have e2 : (2 : Nat) ^ 8 = 256 := by decide
  simp only [e, e2, Nat.shiftRight_eq_div_pow, Option.some.injEq, UINT8_SIZE, UINT16_SIZE]
  omega

/-- C25. Fan-command round trip: for each of the four fan command codes, every device
with a valid selected page and every two bytes `b0`, `b1`, the write of `[b0, b1]` with
length 2 returns a device on which the reads of the same command at index 0 and 1
return `b0` and `b1` and leave the device as it is; the write changes no other member
of the selected page, no other page, and neither the page index nor the number of
pages. -/
theorem fan_command_round_trip (s : PMBusDevice) (c : Nat) (b0 b1 : Fin UINT8_SIZE)
    (hc : c ∈ fan_command_codes) (hv : valid_page s) :
    ∃ s' pg pg', current_page s = some pg
      ∧ pmbus_write_data s c [b0, b1] 2 = some s'
      ∧ pmbus_read_data s' c 0 = some (b0.val, s')
      ∧ pmbus_read_data s' c 1 = some (b1.val, s')
      ∧ current_page s' = some pg' ∧ other_fields_kept c pg pg'
      ∧ other_pages_kept s s' := by
  obtain ⟨pg, hpg⟩ := current_page_of_valid s hv
  simp only [fan_command_codes, List.mem_cons, List.mem_singleton, List.not_mem_nil,
    or_false] at hc
  rcases hc with rfl | rfl | rfl | rfl
  · obtain ⟨s', e, hc', hk, -⟩ := update_page_spec s
      (fun p => { p with fan_command_1 := u16 (b0.val + 256 * b1.val) }) pg hpg
    refine ⟨s', _, _, hpg, ?_, ?_, ?_, hc', ?_, hk⟩
    · simpa [pmbus_write_data, PMBUS_C_FAN_COMMAND_1, PMBUS_C_PAGE, PMBUS_C_FAN_CONFIG_1_2,
        memcpy16] using e
    · simp [pmbus_read_data, PMBUS_C_FAN_COMMAND_1, PMBUS_C_PAGE, PMBUS_C_FAN_CONFIG_1_2,
        PMBUS_C_CAPABILITY, PMBUS_C_VOUT_MODE, hc', byte_of16_zero]
    · simp [pmbus_read_data, PMBUS_C_FAN_COMMAND_1, PMBUS_C_PAGE, PMBUS_C_FAN_CONFIG_1_2,
        PMBUS_C_CAPABILITY, PMBUS_C_VOUT_MODE, hc', byte_of16_one]
    · simp [other_fields_kept, PMBUS_C_FAN_COMMAND_1, PMBUS_C_FAN_COMMAND_2,
        PMBUS_C_FAN_COMMAND_3, PMBUS_C_FAN_COMMAND_4]
  · obtain ⟨s', e, hc', hk, -⟩ := update_page_spec s
      (fun p => { p with fan_command_2 := u16 (b0.val + 256 * b1.val) }) pg hpg
    refine ⟨s', _, _, hpg, ?_, ?_, ?_, hc', ?_, hk⟩
    · simpa [pmbus_write_data, PMBUS_C_FAN_COMMAND_1, PMBUS_C_FAN_COMMAND_2, PMBUS_C_PAGE,
        PMBUS_C_FAN_CONFIG_1_2, memcpy16] using e
    · simp [pmbus_read_data, PMBUS_C_FAN_COMMAND_1, PMBUS_C_FAN_COMMAND_2, PMBUS_C_PAGE,
        PMBUS_C_FAN_CONFIG_1_2, PMBUS_C_CAPABILITY, PMBUS_C_VOUT_MODE, hc', byte_of16_zero]
    · simp [pmbus_read_data, PMBUS_C_FAN_COMMAND_1, PMBUS_C_FAN_COMMAND_2, PMBUS_C_PAGE,
        PMBUS_C_FAN_CONFIG_1_2, PMBUS_C_CAPABILITY, PMBUS_C_VOUT_MODE, hc', byte_of16_one]
    · simp [other_fields_kept, PMBUS_C_FAN_COMMAND_1, PMBUS_C_FAN_COMMAND_2,
        PMBUS_C_FAN_COMMAND_3, PMBUS_C_FAN_COMMAND_4]
  · obtain ⟨s', e, hc', hk, -⟩ := update_page_spec s
      (fun p => { p with fan_command_3 := u16 (b0.val + 256 * b1.val) }) pg hpg
    refine ⟨s', _, _, hpg, ?_, ?_, ?_, hc', ?_, hk⟩
    · simpa [pmbus_write_data, PMBUS_C_FAN_COMMAND_1, PMBUS_C_FAN_COMMAND_2,
        PMBUS_C_FAN_COMMAND_3, PMBUS_C_FAN_CONFIG_3_4, PMBUS_C_PAGE, PMBUS_C_FAN_CONFIG_1_2,
        memcpy16] using e
    · simp [pmbus_read_data, PMBUS_C_FAN_COMMAND_1, PMBUS_C_FAN_COMMAND_2,
        PMBUS_C_FAN_COMMAND_3, PMBUS_C_FAN_CONFIG_3_4, PMBUS_C_PAGE, PMBUS_C_FAN_CONFIG_1_2,
        PMBUS_C_CAPABILITY, PMBUS_C_VOUT_MODE, hc', byte_of16_zero]
    · simp [pmbus_read_data, PMBUS_C_FAN_COMMAND_1, PMBUS_C_FAN_COMMAND_2,
        PMBUS_C_FAN_COMMAND_3, PMBUS_C_FAN_CONFIG_3_4, PMBUS_C_PAGE, PMBUS_C_FAN_CONFIG_1_2,
        PMBUS_C_CAPABILITY, PMBUS_C_VOUT_MODE, hc', byte_of16_one]
    · simp [other_fields_kept, PMBUS_C_FAN_COMMAND_1, PMBUS_C_FAN_COMMAND_2,
        PMBUS_C_FAN_COMMAND_3, PMBUS_C_FAN_COMMAND_4]
  · obtain ⟨s', e, hc', hk, -⟩ := update_page_spec s
      (fun p => { p with fan_command_4 := u16 (b0.val + 256 * b1.val) }) pg hpg
    refine ⟨s', _, _, hpg, ?_, ?_, ?_, hc', ?_, hk⟩
    · simpa [pmbus_write_data, PMBUS_C_FAN_COMMAND_1, PMBUS_C_FAN_COMMAND_2,
        PMBUS_C_FAN_COMMAND_3, PMBUS_C_FAN_COMMAND_4, PMBUS_C_FAN_CONFIG_3_4, PMBUS_C_PAGE,
        PMBUS_C_FAN_CONFIG_1_2, memcpy16] using e
    · simp [pmbus_read_data, PMBUS_C_FAN_COMMAND_1, PMBUS_C_FAN_COMMAND_2,
        PMBUS_C_FAN_COMMAND_3, PMBUS_C_FAN_COMMAND_4, PMBUS_C_FAN_CONFIG_3_4, PMBUS_C_PAGE,
        PMBUS_C_FAN_CONFIG_1_2, PMBUS_C_CAPABILITY, PMBUS_C_VOUT_MODE, hc', byte_of16_zero]
    · simp [pmbus_read_data, PMBUS_C_FAN_COMMAND_1, PMBUS_C_FAN_COMMAND_2,
        PMBUS_C_FAN_COMMAND_3, PMBUS_C_FAN_COMMAND_4, PMBUS_C_FAN_CONFIG_3_4, PMBUS_C_PAGE,
        PMBUS_C_FAN_CONFIG_1_2, PMBUS_C_CAPABILITY, PMBUS_C_VOUT_MODE, hc', byte_of16_one]
    · simp [other_fields_kept, PMBUS_C_FAN_COMMAND_1, PMBUS_C_FAN_COMMAND_2,
        PMBUS_C_FAN_COMMAND_3, PMBUS_C_FAN_COMMAND_4]

theorem valid_page_initDevice : valid_page initDevice := by
  unfold valid_page
  decide

theorem valid_page_fanDevice : valid_page fanDevice := by
  unfold valid_page
  decide

theorem fan_command_round_trip_witness :
    ∃ s' pg pg', current_page fanDevice = some pg
      ∧ pmbus_write_data fanDevice PMBUS_C_FAN_COMMAND_3 [0x12, 0x34] 2 = some s'
      ∧ pmbus_read_data s' PMBUS_C_FAN_COMMAND_3 0 = some (0x12, s')
      ∧ pmbus_read_data s' PMBUS_C_FAN_COMMAND_3 1 = some (0x34, s')
      ∧ current_page s' = some pg' ∧ other_fields_kept PMBUS_C_FAN_COMMAND_3 pg pg'
      ∧ other_pages_kept fanDevice s' :=
  fan_command_round_trip fanDevice PMBUS_C_FAN_COMMAND_3 0x12 0x34 (by decide)
    valid_page_fanDevice

/-- C27. Bad-length atomicity: for each of the four fan command codes, every buffer and
every length other than 2, whatever the selected page, `pmbus_write_data` reports one
guest error and leaves the device as it was: the array of pages (the stored fan command
and the status members among them), the selected page index and the number of pages.
-/
theorem fan_command_bad_length (s : PMBusDevice) (c : Nat) (buf : List (Fin UINT8_SIZE))
    (len : Int) (hc : c ∈ fan_command_codes) (hlen : len ≠ 2) :
    ∃ s', pmbus_write_data s c buf len = some s'
      ∧ s'.pages = s.pages ∧ s'.page = s.page ∧ s'.nr_pages = s.nr_pages
      ∧ s'.guest_errors = s.guest_errors + 1 := by
  refine ⟨log_unexpected_length s, ?_, rfl, rfl, rfl, rfl⟩
  simp only [fan_command_codes, List.mem_cons, List.mem_singleton, List.not_mem_nil,
    or_false] at hc
  rcases hc with rfl | rfl | rfl | rfl <;>
    simp [pmbus_write_data, PMBUS_C_FAN_COMMAND_1, PMBUS_C_FAN_COMMAND_2,
      PMBUS_C_FAN_COMMAND_3, PMBUS_C_FAN_COMMAND_4, PMBUS_C_FAN_CONFIG_3_4, PMBUS_C_PAGE,
      PMBUS_C_FAN_CONFIG_1_2, hlen]

theorem fan_command_bad_length_witness :
    ∃ s', pmbus_write_data fanDevice PMBUS_C_FAN_COMMAND_1 [0x56] 1 = some s'
      ∧ s'.pages = fanDevice.pages ∧ s'.page = fanDevice.page
      ∧ s'.nr_pages = fanDevice.nr_pages
      ∧ s'.guest_errors = fanDevice.guest_errors + 1 :=
  fan_command_bad_length fanDevice PMBUS_C_FAN_COMMAND_1 [0x56] 1 (by decide) (by decide)

/-! ## The invalid-command latch (C26) -/

/-- C26. Invalid-command latch, on a device with a valid selected page. For a command
code that `pmbus_send_byte`, `pmbus_write_data` or `pmbus_read_data` has no case for,
the handler sets the CML bit (bit 1) of `status_byte` and the INV_CMD bit (bit 7) of
`status_cml` in the selected page, changes no other member of it and no other page,
and `pmbus_read_data` returns 0. The byte `PMBUS_C_CLEAR_FAULTS` sets `status_byte` and
`status_cml` of the selected page to 0 and changes nothing else, so that a read of
`PMBUS_C_STATUS_BYTE` after it returns 0. -/
theorem invalid_command_latch (s : PMBusDevice) (cmd : Nat) (hv : valid_page s) :
    (cmd ∉ send_byte_codes →
        ∃ s', pmbus_send_byte s cmd = some s' ∧ invalid_command_latched s s')
      ∧ (cmd ∉ write_data_codes → ∀ buf len,
        ∃ s', pmbus_write_data s cmd buf len = some s' ∧ invalid_command_latched s s')
      ∧ (cmd ∉ read_data_codes → ∀ n,
        ∃ s', pmbus_read_data s cmd n = some (0, s') ∧ invalid_command_latched s s')
      ∧ (∃ s' pg pg', current_page s = some pg
          ∧ pmbus_send_byte s PMBUS_C_CLEAR_FAULTS = some s'
          ∧ current_page s' = some pg'
          ∧ pg'.status_byte = 0 ∧ pg'.status_cml = 0
          ∧ pg' = { pg with status_byte := 0, status_cml := 0 }
          ∧ other_pages_kept s s'
          ∧ ∀ n, pmbus_read_data s' PMBUS_C_STATUS_BYTE n = some (0, s')) := by
  obtain ⟨sl, el, hl⟩ := latch_spec s hv
  refine ⟨?_, ?_, ?_, ?_⟩
  · intro h
    simp only [send_byte_codes, List.mem_singleton] at h
    refine ⟨sl, ?_, hl⟩
    unfold pmbus_send_byte
    rw [if_neg h, el]
  · intro h buf len
    simp only [write_data_codes, List.mem_cons, List.mem_singleton, List.not_mem_nil,
      or_false, not_or] at h
    obtain ⟨h1, h2, h3, h4, h5, h6, h7, h8, h9⟩ := h
    refine ⟨sl, ?_, hl⟩
    unfold pmbus_write_data
    rw [if_neg h1, if_neg h2, if_neg h3, if_neg h4, if_neg h5, if_neg h6, if_neg h7,
      if_neg h8, if_neg h9, el]
  · intro h n
    simp only [read_data_codes, List.mem_cons, List.mem_singleton, List.not_mem_nil,
      or_false, not_or] at h
    obtain ⟨h1, h2, h3, h4, h5, h6, h7, h8, h9, h10, h11, h12, h13⟩ := h
    refine ⟨sl, ?_, hl⟩
    unfold pmbus_read_data
    rw [if_neg h1, if_neg h2, if_neg h3, if_neg h4, if_neg h5, if_neg h6, if_neg h7,
      if_neg h8, if_neg h9, if_neg h10, if_neg h11, if_neg h12, if_neg h13, el]
    rfl
  · obtain ⟨pg, hpg⟩ := current_page_of_valid s hv
    obtain ⟨s', e, hc', hk, -⟩ := update_page_spec s
      (fun p => { p with status_byte := 0, status_cml := 0 }) pg hpg
    refine ⟨s', pg, _, hpg, ?_, hc', rfl, rfl, rfl, hk, ?_⟩
    · unfold pmbus_send_byte
      rw [if_pos rfl, e]
    · intro n
      simp [pmbus_read_data, PMBUS_C_STATUS_BYTE, PMBUS_C_FAN_COMMAND_1, PMBUS_C_FAN_COMMAND_2,
        PMBUS_C_FAN_COMMAND_3, PMBUS_C_FAN_COMMAND_4, PMBUS_C_FAN_CONFIG_3_4, PMBUS_C_PAGE,
        PMBUS_C_FAN_CONFIG_1_2, PMBUS_C_CAPABILITY, PMBUS_C_VOUT_MODE, hc']

theorem invalid_command_latch_witness :
    (∃ s', pmbus_send_byte fanDevice 0x7e = some s' ∧ invalid_command_latched fanDevice s')
      ∧ (∀ buf len, ∃ s', pmbus_write_data fanDevice 0x7e buf len = some s'
          ∧ invalid_command_latched fanDevice s')
      ∧ (∀ n, ∃ s', pmbus_read_data fanDevice 0x7e n = some (0, s')
          ∧ invalid_command_latched fanDevice s') :=
  have h := invalid_command_latch fanDevice 0x7e valid_page_fanDevice
  ⟨h.1 (by decide), h.2.1 (by decide), h.2.2.1 (by decide)⟩

end PMBus

namespace AspeedGpio

/-! ## Write-1-to-clear of the status register (C18) -/

end AspeedGpio
